import Mathlib

/-!
# Row-query request building (`lib/rows.js`)

A shallow embedding of `Rows.prototype.query` and `Rows.prototype.explain`
from `lib/rows.js`, with theorems about the request they build.

Modelling conventions.

* A JavaScript string is a `JSString`, the list of its UTF-16 code units, so
  that strings with an unpaired surrogate exist and `encodeURIComponent` throws
  its `URIError` on them. `js "text"` is the string a literal writes and
  `unit 'c'` the code unit of a character.
* A JavaScript value is a `JSVal`. Numbers are carried by their `ToString`
  image, objects are plain objects given by their own enumerable properties
  in `Object.keys` order; no value of the model is callable.
* A function that may throw returns `Except JSError _`. `Rows.query` returns
  the `Operation` it hands to `requester.startRequest`; when it throws, no
  `Operation` was constructed and `requester.startRequest` was not reached,
  since both happen in the last statements of the function.
-/

namespace Rows

set_option maxRecDepth 4000

/-! ## JavaScript strings and values -/

/-- A JavaScript string: the list of its UTF-16 code units, numbers below
`2^16`. -/
abbrev JSString := List Nat

/-- The UTF-16 code units of a character. -/
def utf16 (c : Char) : List Nat :=
  if c.toNat < 0x10000 then [c.toNat]
  else [0xD800 + (c.toNat - 0x10000) / 0x400, 0xDC00 + (c.toNat - 0x10000) % 0x400]

/-- The JavaScript string a string literal writes. -/
def js (s : String) : JSString :=
  s.data.flatMap utf16

/-- The code unit of a character of the basic plane. -/
def unit (c : Char) : Nat :=
  c.toNat

/-- JavaScript values that can occur as option values and as bindings. -/
inductive JSVal where
  | undefined : JSVal
  | null : JSVal
  | bool (b : Bool) : JSVal
  /-- A number, represented by the string `ToString` yields for it. -/
  | num (lit : JSString) : JSVal
  /-- A primitive string. -/
  | str (s : JSString) : JSVal
  /-- A boxed string, `new String(s)`. -/
  | strObj (s : JSString) : JSVal
  /-- A plain object, as the list of its own enumerable properties. -/
  | obj (props : List (JSString × JSVal)) : JSVal

/-- What a call can throw: `new Error(msg)`, the `TypeError` raised by reading
a property of `null` or `undefined` and by converting to a string an object
that has no callable `toString`, and the `URIError` of `encodeURIComponent`. -/
inductive JSError where
  | error (msg : JSString) : JSError
  | typeError : JSError
  | uriError : JSError
deriving DecidableEq

/-- Test `v !== null && v !== void 0`. -/
def JSVal.isSet : JSVal → Bool
  | .undefined => false
  | .null => false
  | _ => true

/-- The conversion of a value to a string, as done by `+` with a string and by
`encodeURIComponent`. A plain object converts through
`Object.prototype.toString`, unless it has an own property `toString`: no value
of the model is callable, `Object.prototype.valueOf` returns the object itself,
and the conversion throws a `TypeError`. -/
def JSVal.toJSString : JSVal → Except JSError JSString
  | .undefined => .ok (js "undefined")
  | .null => .ok (js "null")
  | .bool true => .ok (js "true")
  | .bool false => .ok (js "false")
  | .num lit => .ok lit
  | .str s => .ok s
  | .strObj s => .ok s
  | .obj props =>
    if (props.lookup (js "toString")).isSome then .error .typeError
    else .ok (js "[object Object]")

/-- The string a primitive or boxed string stands for; used where the value is
known to be one, so that its conversion cannot throw. -/
def JSVal.stringValue : JSVal → JSString
  | .str s => s
  | .strObj s => s
  | _ => []

/-- Test `typeof v === 'string' || v instanceof String`. -/
def JSVal.isString : JSVal → Bool
  | .str _ => true
  | .strObj _ => true
  | _ => false

/-- Test `v === s` for a string literal `s`: strict equality holds for the
primitive string only. -/
def JSVal.strictEqStr : JSVal → JSString → Bool
  | .str t, s => t == s
  | _, _ => false

/-- Property read `v.name`, for the names this module reads (`value`, `type`,
`lang`): a `TypeError` on `null` and `undefined`, the property of a plain
object when it has it, and `undefined` otherwise (primitives and boxed strings
have no property of these names). -/
def JSVal.get : JSVal → JSString → Except JSError JSVal
  | .undefined, _ => .error .typeError
  | .null, _ => .error .typeError
  | .obj props, name => .ok ((props.lookup name).getD .undefined)
  | _, _ => .ok .undefined

/-- Property read `v.name` on a value already known to be neither `null` nor
`undefined`, where the read cannot throw. -/
def JSVal.prop : JSVal → JSString → JSVal
  | .obj props, name => (props.lookup name).getD .undefined
  | _, _ => .undefined

/-- Call `xs.indexOf(v)` on an array of string literals: the index of the
first element strictly equal to `v`, or `-1`. -/
def indexOf (xs : List JSString) (v : JSVal) : Int :=
  match v with
  | .str s => if xs.contains s then (xs.indexOf s : Nat) else -1
  | _ => -1

/-- Call `s.indexOf(':')` on a string. -/
def indexOfColon (s : JSString) : Int :=
  if s.contains (unit ':') then (s.indexOf (unit ':') : Nat) else -1

/-! ## `encodeURIComponent` -/

/-- Code units `encodeURIComponent` leaves alone: letters, digits and
`- _ . ! ~ * ' ( )`. -/
def uriUnreserved (u : Nat) : Bool :=
  (65 ≤ u && u ≤ 90) || (97 ≤ u && u ≤ 122) || (48 ≤ u && u ≤ 57)
    || [45, 95, 46, 33, 126, 42, 39, 40, 41].contains u

/-- A leading surrogate, `0xD800` to `0xDBFF`. -/
def isHighSurrogate (u : Nat) : Bool :=
  0xD800 ≤ u && u ≤ 0xDBFF

/-- A trailing surrogate, `0xDC00` to `0xDFFF`. -/
def isLowSurrogate (u : Nat) : Bool :=
  0xDC00 ≤ u && u ≤ 0xDFFF

/-- The UTF-8 bytes of a code point. -/
def utf8Bytes (n : Nat) : List Nat :=
  if n < 0x80 then [n]
  else if n < 0x800 then [0xC0 + n / 64, 0x80 + n % 64]
  else if n < 0x10000 then [0xE0 + n / 4096, 0x80 + n / 64 % 64, 0x80 + n % 64]
  else [0xF0 + n / 262144, 0x80 + n / 4096 % 64, 0x80 + n / 64 % 64, 0x80 + n % 64]

/-- The upper-case hexadecimal digit of `d % 16`. -/
def hexDigit (d : Nat) : Nat :=
  (js "0123456789ABCDEF").getD (d % 16) (unit '0')

/-- The escape `%XX` of one byte. -/
def percentByte (b : Nat) : List Nat :=
  [unit '%', hexDigit (b / 16), hexDigit b]

/-- The escapes of the UTF-8 bytes of a code point. -/
def percentEncode (codePoint : Nat) : List Nat :=
  (utf8Bytes codePoint).flatMap percentByte

/-- The abstract operation `Encode` of `encodeURIComponent`, on the code units
still to read; `pending` is a leading surrogate just read, which must be
followed by a trailing one. An unpaired surrogate throws a `URIError`. -/
def encodeUnits : Option Nat → List Nat → Except JSError JSString
  | none, [] => .ok []
  | some _, [] => .error .uriError
  | none, u :: rest =>
    if uriUnreserved u then
      match encodeUnits none rest with
      | .error e => .error e
      | .ok encoded => .ok (u :: encoded)
    else if isLowSurrogate u then .error .uriError
    else if isHighSurrogate u then encodeUnits (some u) rest
    else
      match encodeUnits none rest with
      | .error e => .error e
      | .ok encoded => .ok (percentEncode u ++ encoded)
  | some high, u :: rest =>
    if isLowSurrogate u then
      match encodeUnits none rest with
      | .error e => .error e
      | .ok encoded =>
        .ok (percentEncode ((high - 0xD800) * 0x400 + (u - 0xDC00) + 0x10000) ++ encoded)
    else .error .uriError

/-- The global function `encodeURIComponent`: its argument is converted to a
string, which is then encoded. -/
def encodeURIComponent (v : JSVal) : Except JSError JSString :=
  match v.toJSString with
  | .error e => .error e
  | .ok s => encodeUnits none s

/-! ## The client, the plan and the operation -/

/-- A JavaScript object seen as its list of properties. -/
abbrev Props := List (JSString × JSVal)

/-- Assignment `o.name = v`: overwrites in place, or appends a new property. -/
def setProp : Props → JSString → JSVal → Props
  | [], name, v => [(name, v)]
  | (k, w) :: rest, name, v =>
    if k == name then (k, v) :: rest else (k, w) :: setProp rest name v

/-- Property read `o.name`. -/
def getProp (o : Props) (name : JSString) : JSVal :=
  (o.lookup name).getD .undefined

/-- The database client, of which this module reads `connectionParams`. -/
structure Client where
  connectionParams : Props

/-- A built plan: this module only calls `builtPlan.toString()`. -/
structure Plan where
  toString : JSString

/-- The `options` argument of `query` and `explain`. A property that is
missing reads as `undefined`. `bindings` is absent (`none`, any falsy value)
or a plain object. -/
structure Options where
  format : JSVal := .undefined
  output : JSVal := .undefined
  rowFormat : JSVal := .undefined
  columnTypes : JSVal := .undefined
  bindings : Option Props := none

/-- The fields `new Operation(name, client, options, requestType,
responseType)` is given, and the two this module assigns afterwards. -/
structure Operation where
  name : JSString
  client : Client
  options : Props
  requestType : JSString
  responseType : JSString
  validStatusCodes : List Nat
  requestBody : JSString

/-- Modelled from the spec: `mlutil.copyProperties` of `lib/mlutil.js`, which
is not among the sources. It returns a fresh object carrying the properties of
its argument ("starts from a copy of immutable connection parameters"). -/
def copyProperties (source : Props) : Props := source

/-! ## `Rows.prototype.query` -/

/-- The body of the bindings loop up to the computation of `name` and `value`
for the entry `key`, `obj = bindings[key]`. After the checks `type` and `lang`
are strings where they are concatenated. -/
def bindingNameValue (key : JSString) (obj : JSVal) : Except JSError (JSString × JSVal) :=
  match obj.get (js "value") with
  | .error e => .error e
  | .ok .undefined => .ok (key, obj)
  | .ok value =>
    let type := obj.prop (js "type")
    let lang := obj.prop (js "lang")
    let hasType := type.isSet
    if hasType && !type.isString then
      .error (.error (js "type must be string"))
    else if hasType && indexOfColon type.stringValue > -1 then
      .error (.error (js "type cannot contain colon - " ++ type.stringValue))
    else
    let hasLang := lang.isSet
    if hasLang && !lang.isString then
      .error (.error (js "lang must be string"))
    else if hasType && hasLang && !type.strictEqStr (js "string") then
      .error (.error (js "cannot combine type with lang - " ++ type.stringValue ++ js " "
        ++ lang.stringValue))
    else if hasLang then
      .ok (key ++ js "@" ++ lang.stringValue, value)
    else if hasType then
      .ok (key ++ js ":" ++ type.stringValue, value)
    else
      .ok (key, value)

/-- The expression `encodeURIComponent('bind:'+name)+'='+encodeURIComponent(value)`
of the loop body: the name is encoded first, then the value. -/
def bindParameter (name : JSString) (value : JSVal) : Except JSError JSString :=
  match encodeURIComponent (.str (js "bind:" ++ name)) with
  | .error e => .error e
  | .ok encodedName =>
    match encodeURIComponent value with
    | .error e => .error e
    | .ok encodedValue => .ok (encodedName ++ js "=" ++ encodedValue)

/-- The loop `for (var i = 0; i < max; i++)` over the keys of `bindings`, from
index `i` on, threading `endpoint` and `sep`. The entries are the keys still
to visit, each with `bindings[key]`. -/
def bindingsLoop : Props → Nat → JSString → JSString → Except JSError (JSString × JSString)
  | [], _, endpoint, sep => .ok (endpoint, sep)
  | (key, obj) :: rest, i, endpoint, sep =>
    match bindingNameValue key obj with
    | .error e => .error e
    | .ok (name, value) =>
      match bindParameter name value with
      | .error e => .error e
      | .ok parameter =>
        let endpoint := endpoint ++ (sep ++ parameter)
        let sep := if i == 0 && sep == js "?" then js "&" else sep
        bindingsLoop rest (i + 1) endpoint sep

/-- One of the four option checks of `query`: the default when the option is
`null` or `undefined`, the option when it is in the legal set, and otherwise
the error whose message is `msg`, then `shown` converted to a string, then a
double quote; the conversion of `shown` can throw. -/
def checkOption (valid : List JSString) (dflt : JSString) (msg : JSString) (v shown : JSVal) :
    Except JSError JSString :=
  if v.isSet then
    if indexOf valid v ≥ 0 then .ok v.stringValue
    else
      match shown.toJSString with
      | .error e => .error e
      | .ok text => .error (.error (msg ++ text ++ js "\""))
  else .ok dflt

/-- Function `queryRows`, the value of `Rows.prototype.query`. The first
argument is the constant `mlutil.multipartBoundary` (of `lib/mlutil.js`, not
among the sources), the second is `this.client`. The result is the operation
passed to `requester.startRequest`. -/
def query (multipartBoundary : JSString) (client : Client) (builtPlan : Plan)
    (options : Options) : Except JSError Operation :=
  let sep := js "?"
  let validFormats := [js "json", js "xml", js "json-seq", js "csv", js "multipart"]
  let validOutputs := [js "object", js "array"]
  let validRowFormats := [js "json", js "xml"]
  let validColumnTypes := [js "rows", js "header"]
  match checkOption validFormats (js "json") (js "invalid rows format \"") options.format
      options.format with
  | .error e => .error e
  | .ok format =>
  match checkOption validOutputs (js "object") (js "invalid rows output \"") options.output
      options.output with
  | .error e => .error e
  | .ok output =>
  match checkOption validRowFormats (js "json") (js "invalid row format \"") options.rowFormat
      options.rowFormat with
  | .error e => .error e
  | .ok rowFormat =>
  match checkOption validColumnTypes (js "rows") (js "invalid column types \"")
      options.columnTypes options.rowFormat with
  | .error e => .error e
  | .ok columnTypes =>
  let endpoint := js "/v1/rows"
  let afterBindings : Except JSError (JSString × JSString) :=
    match options.bindings with
    | none => .ok (endpoint, sep)
    | some bindings => bindingsLoop bindings 0 endpoint sep
  match afterBindings with
  | .error e => .error e
  | .ok (endpoint, sep) =>
  let connectionParams := client.connectionParams
  let requestOptions := copyProperties connectionParams
  let requestOptions := setProp requestOptions (js "method") (.str (js "POST"))
  let acceptHeader :=
    if format == js "multipart" then js "multipart/mixed; boundary=" ++ multipartBoundary
    else if format == js "csv" then js "text/csv"
    else js "application/" ++ format
  let requestOptions := setProp requestOptions (js "headers")
    (.obj [(js "Content-Type", .str (js "application/json")), (js "Accept", .str acceptHeader)])
  let endpoint :=
    if format == js "multipart" then
      if rowFormat == js "xml" then
        endpoint ++ (sep ++ js "row-format=" ++ rowFormat)
      else
        endpoint ++ (sep ++ js "output=" ++ output ++ js "&row-format=" ++ rowFormat
          ++ js "&column-types=" ++ columnTypes)
    else
      endpoint ++ (sep ++ js "output=" ++ output ++ js "&column-types=" ++ columnTypes)
  let requestOptions := setProp requestOptions (js "path") (.str endpoint)
  .ok {
    name := js "query rows"
    client := client
    options := requestOptions
    requestType := js "single"
    responseType := if format == js "multipart" then js "multipart" else js "single"
    validStatusCodes := [200, 404]
    requestBody := builtPlan.toString }

/-! ## `Rows.prototype.explain` -/

/-- Function `explainRows`, the value of `Rows.prototype.explain`. -/
def explain (client : Client) (builtPlan : Plan) (options : Options) :
    Except JSError Operation :=
  let connectionParams := client.connectionParams
  let requestOptions := copyProperties connectionParams
  let requestOptions := setProp requestOptions (js "method") (.str (js "POST"))
  let validFormats := [js "json", js "xml"]
  let accept : Except JSError JSString :=
    if options.format.isSet then
      if indexOf validFormats options.format ≥ 0 then
        .ok (js "application/" ++ options.format.stringValue)
      else
        match options.format.toJSString with
        | .error e => .error e
        | .ok text => .error (.error (js "invalid explain format \"" ++ text ++ js "\""))
    else .ok (js "application/json")
  match accept with
  | .error e => .error e
  | .ok acceptHeader =>
  let requestOptions := setProp requestOptions (js "headers")
    (.obj [(js "Content-Type", .str (js "application/json")), (js "Accept", .str acceptHeader)])
  let requestOptions := setProp requestOptions (js "path") (.str (js "/v1/rows?output=explain"))
  .ok {
    name := js "explain rows"
    client := client
    options := requestOptions
    requestType := js "single"
    responseType := js "single"
    validStatusCodes := [200, 404]
    requestBody := builtPlan.toString }

/-! ## Observations on an operation -/

/-- The `path` of the request options of an operation. -/
def Operation.path (op : Operation) : JSString :=
  (getProp op.options (js "path")).stringValue

/-- The `method` of the request options of an operation. -/
def Operation.method (op : Operation) : JSVal :=
  getProp op.options (js "method")

/-- The header `name` of the request options of an operation. -/
def Operation.header (op : Operation) (name : JSString) : JSVal :=
  (getProp op.options (js "headers")).prop name

/-- The parameters of the query string of a path: what follows the first `?`,
split at every `&`. -/
def queryParams (path : JSString) : List JSString :=
  ((path.dropWhile (· != unit '?')).drop 1).splitOn (unit '&')

/-- The parameters `ps`, joined by `&`. -/
def joinParams (ps : List JSString) : JSString :=
  [unit '&'].intercalate ps

/-- A parameter has the name `name` when it starts with `name=`. -/
def hasName (name : JSString) (param : JSString) : Prop :=
  (name ++ js "=") <+: param

/-- The value an option takes: the default when it is `null` or `undefined`. -/
def optionValue (dflt : JSString) (v : JSVal) : JSString :=
  if v.isSet then v.stringValue else dflt

/-- An option value is legal when it is `null`, `undefined` or one of the
strings of the legal set. -/
def legalOption (legal : List JSString) (v : JSVal) : Prop :=
  v.isSet = false ∨ v ∈ legal.map JSVal.str

/-- The four options of `query` are legal. -/
def legalOptions (o : Options) : Prop :=
  legalOption [js "json", js "xml", js "json-seq", js "csv", js "multipart"] o.format ∧
  legalOption [js "object", js "array"] o.output ∧
  legalOption [js "json", js "xml"] o.rowFormat ∧
  legalOption [js "rows", js "header"] o.columnTypes

/-- The error an option check throws for the rejected option shown as `shown`:
the error of the message `msg`, `shown`, double quote, or the `TypeError` of
converting `shown` to a string. -/
def optionError (msg : JSString) (shown : JSVal) : JSError :=
  match shown.toJSString with
  | .error e => e
  | .ok text => .error (msg ++ text ++ js "\"")

/-- The parameter one pass of the bindings loop appends after the separator. -/
def bindingParam (key : JSString) (obj : JSVal) : Except JSError JSString :=
  match bindingNameValue key obj with
  | .error e => .error e
  | .ok (name, value) => bindParameter name value

/-- The parameters of all entries of `bindings` in order, or the error of the
first entry that has one. -/
def bindingParams : Props → Except JSError (List JSString)
  | [] => .ok []
  | (key, obj) :: rest =>
    match bindingParam key obj with
    | .error e => .error e
    | .ok p =>
      match bindingParams rest with
      | .error e => .error e
      | .ok ps => .ok (p :: ps)

/-- The parameters the `switch (format)` of `query` appends, as a list. -/
def formatParams (format output rowFormat columnTypes : JSString) : List JSString :=
  if format = js "multipart" then
    if rowFormat = js "xml" then [js "row-format=" ++ rowFormat]
    else [js "output=" ++ output, js "row-format=" ++ rowFormat,
      js "column-types=" ++ columnTypes]
  else [js "output=" ++ output, js "column-types=" ++ columnTypes]

/-- The text appended by the passes of the bindings loop after the first. -/
def ampAll (ps : List JSString) : JSString :=
  (ps.map fun p => unit '&' :: p).flatten

/-- The `Accept` header `query` computes for a format. -/
def acceptFor (multipartBoundary format : JSString) : JSString :=
  if format = js "multipart" then js "multipart/mixed; boundary=" ++ multipartBoundary
  else if format = js "csv" then js "text/csv"
  else js "application/" ++ format

/-- The operation `query` builds from legal options whose bindings encode to
the parameters `bps`. -/
def queryOperation (multipartBoundary : JSString) (client : Client) (builtPlan : Plan)
    (o : Options) (bps : List JSString) : Operation :=
  let format := optionValue (js "json") o.format
  { name := js "query rows"
    client := client
    options :=
      setProp (setProp (setProp client.connectionParams (js "method") (.str (js "POST")))
        (js "headers")
        (.obj [(js "Content-Type", .str (js "application/json")),
          (js "Accept", .str (acceptFor multipartBoundary format))])) (js "path")
        (.str (js "/v1/rows?" ++ joinParams (bps ++ formatParams format
          (optionValue (js "object") o.output) (optionValue (js "json") o.rowFormat)
          (optionValue (js "rows") o.columnTypes))))
    requestType := js "single"
    responseType := if format = js "multipart" then js "multipart" else js "single"
    validStatusCodes := [200, 404]
    requestBody := builtPlan.toString }

/-- Code units of an encoded component: the unreserved ones and `%`. -/
def uriSafe (u : Nat) : Bool :=
  uriUnreserved u || u == unit '%'

/-- Code units of a parameter: those of an encoded component and `=`. -/
def paramChar (u : Nat) : Bool :=
  uriSafe u || u == unit '='

/-- A path has no parameter of the name `name`. -/
def noParam (name : JSString) (path : JSString) : Prop :=
  ∀ q ∈ queryParams path, ¬ hasName name q

/-- The wire name of a binding with a `value` sub-field: `key@lang` when
`lang` is present, `key:type` when `type` is present without `lang`, and
`key` when neither is. -/
def wireName (key : JSString) (type lang : JSVal) : JSString :=
  if lang.isSet then key ++ js "@" ++ lang.stringValue
  else if type.isSet then key ++ js ":" ++ type.stringValue
  else key

/-- A `type` passes validation: it is absent, or a string without colon. -/
def typeValid (type : JSVal) : Prop :=
  type.isSet = false ∨ (type.isString = true ∧ unit ':' ∉ type.stringValue)

/-- A `lang` passes validation: it is absent, or a string. -/
def langValid (lang : JSVal) : Prop :=
  lang.isSet = false ∨ lang.isString = true

/-- The combination passes validation: `type` and `lang` are not both present,
unless `type` is the primitive string `string`. -/
def comboValid (type lang : JSVal) : Prop :=
  ¬ (type.isSet = true ∧ lang.isSet = true ∧ type ≠ .str (js "string"))

/-- The operation `explain` builds from an options object with a legal
`format`. -/
def explainOperation (client : Client) (builtPlan : Plan) (o : Options) : Operation :=
  { name := js "explain rows"
    client := client
    options :=
      setProp (setProp (setProp client.connectionParams (js "method") (.str (js "POST")))
        (js "headers")
        (.obj [(js "Content-Type", .str (js "application/json")),
          (js "Accept", .str (js "application/" ++ optionValue (js "json") o.format))]))
        (js "path") (.str (js "/v1/rows?output=explain"))
    requestType := js "single"
    responseType := js "single"
    validStatusCodes := [200, 404]
    requestBody := builtPlan.toString }

/-- A store of JavaScript objects, addressed by their index. -/
abbrev Store := List Props

/-- The object at an address of the store. -/
def Store.read (store : Store) (ref : Nat) : Props :=
  store.getD ref []

/-- Modelled from the spec: `mlutil.copyProperties(source)` of `lib/mlutil.js`,
which is not among the sources, on the store. It allocates a new object
carrying the properties of the object at `source` and returns its address
("starts from a copy of immutable connection parameters (never mutates the
shared original)"). -/
def copyPropertiesRef (store : Store) (source : Nat) : Nat × Store :=
  (store.length, store ++ [copyProperties (store.read source)])

/-- Assignment `ref.name = v` on the store. -/
def assignRef (store : Store) (ref : Nat) (name : JSString) (v : JSVal) : Store :=
  store.set ref (setProp (store.read ref) name v)

/-- The statements of `query` and of `explain` that build `requestOptions`, on
the store: the copy of `connectionParams`, then the assignments of `method`,
`headers` and `path`. The result is the address of `requestOptions` and the
store after the statements. -/
def requestOptionsRef (store : Store) (connectionParams : Nat) (headers : JSVal)
    (path : JSString) : Nat × Store :=
  let copied := copyPropertiesRef store connectionParams
  let requestOptions := copied.1
  let store := assignRef copied.2 requestOptions (js "method") (.str (js "POST"))
  let store := assignRef store requestOptions (js "headers") headers
  let store := assignRef store requestOptions (js "path") (.str path)
  (requestOptions, store)

/-- Modelled from the spec: how the result provider of an operation settles. -/
inductive Settlement where
  | resolved (items : List JSString) : Settlement
  | failed (status : Nat) (body : JSString) : Settlement
deriving DecidableEq

/-- Modelled from the spec: the settlement of the result provider of an
operation, done by `lib/requester.js` and `lib/operation.js`, which are not
among the sources. "Non-200 status codes not in the operation's valid set fail
the ResultProvider with an error carrying the HTTP status and server-supplied
error body"; "a 404 on an operation whose empty result semantics are
explicitly valid resolves to an empty sequence rather than an error"; any other
response resolves with the decoded items. -/
def settle (op : Operation) (status : Nat) (body : JSString) (decoded : List JSString) :
    Settlement :=
  if status ≠ 200 ∧ status ∉ op.validStatusCodes then .failed status body
  else if status = 404 then .resolved []
  else .resolved decoded

/-- The path of a row query as the specification words it: `/v1/rows?`
followed by the `&`-join of the list made of one parameter per key of the
bindings, in the order of the keys, followed by the format parameters. -/
def declarativePath (o : Options) : Except JSError JSString := do
  let bindParams ← (o.bindings.getD []).mapM fun kv => bindingParam kv.1 kv.2
  pure (js "/v1/rows?" ++ (js "&").intercalate (bindParams ++ formatParams
    (optionValue (js "json") o.format) (optionValue (js "object") o.output)
    (optionValue (js "json") o.rowFormat) (optionValue (js "rows") o.columnTypes)))

/-- The number `k` of format parameters: 1 for `multipart` with the row format
`xml`, 3 for `multipart` with the row format `json`, and 2 otherwise. -/
def formatParamCount (o : Options) : Nat :=
  if optionValue (js "json") o.format = js "multipart" then
    if optionValue (js "json") o.rowFormat = js "xml" then 1 else 3
  else 2

/-! ## Properties of the helpers -/

theorem getProp_setProp_same (o : Props) (name : JSString) (v : JSVal) :
    getProp (setProp o name v) name = v := by
  induction o with
  | nil => simp [setProp, getProp, List.lookup]
  | cons kw rest ih =>
    obtain ⟨k, w⟩ := kw
    by_cases h : k = name
    · simp [setProp, getProp, List.lookup, h]
    · have h' : (name == k) = false := by simpa using fun e => h e.symm
      simp only [setProp, beq_iff_eq, h, if_false]
      simpa [getProp, List.lookup, h'] using ih

theorem getProp_setProp_other (o : Props) (name other : JSString) (v : JSVal)
    (hne : other ≠ name) : getProp (setProp o name v) other = getProp o other := by
  induction o with
  | nil =>
    have h' : (other == name) = false := by simpa using hne
    simp [setProp, getProp, List.lookup, h']
  | cons kw rest ih =>
    obtain ⟨k, w⟩ := kw
    by_cases h : k = name
    · subst h
      have h' : (other == k) = false := by simpa using hne
      simp [setProp, getProp, List.lookup, h']
    · simp only [setProp, beq_iff_eq, h, if_false]
      by_cases h2 : other = k
      · simp [getProp, List.lookup, h2]
      · have h' : (other == k) = false := by simpa using h2
        simpa [getProp, List.lookup, h'] using ih

theorem indexOf_nonneg_iff (xs : List JSString) (v : JSVal) :
    indexOf xs v ≥ 0 ↔ v ∈ xs.map JSVal.str := by
  cases v <;> simp [indexOf]
  rename_i s
  by_cases h : s ∈ xs
  · simp [h]
  · simp [h]

theorem legalOption_isSet {legal : List JSString} {v : JSVal} (h : v ∈ legal.map JSVal.str) :
    v.isSet = true := by
  simp only [List.mem_map] at h
  obtain ⟨s, _, rfl⟩ := h
  rfl

theorem checkOption_of_legal (valid : List JSString) (dflt msg : JSString) (v shown : JSVal)
    (h : legalOption valid v) :
    checkOption valid dflt msg v shown = .ok (optionValue dflt v) := by
  unfold checkOption optionValue
  rcases h with h | h
  · simp [h]
  · have h1 := legalOption_isSet h
    have h2 := (indexOf_nonneg_iff valid v).2 h
    simp [h1, h2]

theorem checkOption_of_illegal (valid : List JSString) (dflt msg : JSString) (v shown : JSVal)
    (h : ¬ legalOption valid v) :
    checkOption valid dflt msg v shown = .error (optionError msg shown) := by
  unfold checkOption optionError
  have h1 : v.isSet = true := by
    by_contra hc
    exact h (Or.inl (by simpa using hc))
  have h2 : ¬ indexOf valid v ≥ 0 := fun hc => h (Or.inr ((indexOf_nonneg_iff valid v).1 hc))
  simp only [h1, h2, if_true, if_false]
  cases shown.toJSString <;> rfl

theorem bindingsLoop_amp (entries : Props) (i : Nat) (endpoint : JSString) :
    bindingsLoop entries i endpoint (js "&") =
      match bindingParams entries with
      | .error e => .error e
      | .ok ps => .ok (endpoint ++ ampAll ps, js "&") := by
  induction entries generalizing i endpoint with
  | nil => simp [bindingsLoop, bindingParams, ampAll]
  | cons kv rest ih =>
    obtain ⟨key, obj⟩ := kv
    simp only [bindingsLoop, bindingParams, bindingParam]
    cases hnv : bindingNameValue key obj with
    | error e => simp
    | ok nv =>
      obtain ⟨name, value⟩ := nv
      simp only []
      cases hp : bindParameter name value with
      | error e => simp
      | ok q =>
        have hs : (if (i == 0 && js "&" == js "?") = true then js "&" else js "&")
            = js "&" := by simp
        simp only [hs, ih]
        cases bindingParams rest with
        | error e => simp
        | ok ps =>
          simp only [Except.ok.injEq, Prod.mk.injEq, and_true]
          have h38 : js "&" = [unit '&'] := rfl
          simp [ampAll, h38]

theorem bindingsLoop_start (entries : Props) (endpoint : JSString) :
    bindingsLoop entries 0 endpoint (js "?") =
      match bindingParams entries with
      | .error e => .error e
      | .ok [] => .ok (endpoint, js "?")
      | .ok (p :: ps) => .ok (endpoint ++ (js "?" ++ p) ++ ampAll ps, js "&") := by
  cases entries with
  | nil => simp [bindingsLoop, bindingParams]
  | cons kv rest =>
    obtain ⟨key, obj⟩ := kv
    simp only [bindingsLoop, bindingParams, bindingParam]
    cases hnv : bindingNameValue key obj with
    | error e => simp
    | ok nv =>
      obtain ⟨name, value⟩ := nv
      simp only []
      cases hp : bindParameter name value with
      | error e => simp
      | ok q =>
        have hs : (if ((0 : Nat) == 0 && js "?" == js "?") = true then js "&" else js "?")
            = js "&" := by simp
        simp only [hs, bindingsLoop_amp]
        cases bindingParams rest with
        | error e => simp
        | ok ps => simp [List.append_assoc]

theorem joinParams_cons_data (p : JSString) (qs : List JSString) :
    joinParams (p :: qs) = p ++ ampAll qs := by
  induction qs generalizing p with
  | nil => simp [joinParams, ampAll, List.intercalate]
  | cons q qs ih =>
    have := ih q
    simp only [joinParams, ampAll, List.intercalate, List.map_cons, List.intersperse_cons_cons,
      List.flatten_cons] at this ⊢
    simp [this]

theorem ampAll_append (ps qs : List JSString) : ampAll (ps ++ qs) = ampAll ps ++ ampAll qs := by
  simp [ampAll]

theorem ampAll_cons (p : JSString) (ps : List JSString) :
    ampAll (p :: ps) = js "&" ++ joinParams (p :: ps) := by
  rw [joinParams_cons_data]
  have h38 : js "&" = [unit '&'] := rfl
  simp [ampAll, h38]

theorem path_of_no_bindings (f : JSString) (fs : List JSString) :
    js "/v1/rows" ++ (js "?" ++ joinParams (f :: fs))
      = js "/v1/rows?" ++ joinParams ([] ++ f :: fs) := by
  have h : js "/v1/rows?" = js "/v1/rows" ++ js "?" := by decide
  rw [h]
  simp

theorem path_of_bindings (p : JSString) (ps : List JSString) (f : JSString)
    (fs : List JSString) :
    js "/v1/rows" ++ (js "?" ++ p) ++ ampAll ps ++ (js "&" ++ joinParams (f :: fs))
      = js "/v1/rows?" ++ joinParams ((p :: ps) ++ f :: fs) := by
  have h : js "/v1/rows?" = js "/v1/rows" ++ js "?" := by decide
  rw [← ampAll_cons, List.cons_append, h]
  simp only [joinParams_cons_data, ampAll_append]
  simp

theorem formatParams_join (sep format output rowFormat columnTypes : JSString) :
    (if format == js "multipart" then
      if rowFormat == js "xml" then
        sep ++ js "row-format=" ++ rowFormat
      else
        sep ++ js "output=" ++ output ++ js "&row-format=" ++ rowFormat
          ++ js "&column-types=" ++ columnTypes
    else
      sep ++ js "output=" ++ output ++ js "&column-types=" ++ columnTypes)
    = sep ++ joinParams (formatParams format output rowFormat columnTypes) := by
  have h1 : js "&row-format=" = unit '&' :: js "row-format=" := by decide
  have h2 : js "&column-types=" = unit '&' :: js "column-types=" := by decide
  unfold formatParams
  by_cases hf : format = js "multipart" <;> by_cases hr : rowFormat = js "xml" <;>
    simp only [hf, hr, beq_self_eq_true, if_true, if_false, beq_iff_eq] <;>
    simp [joinParams, List.intercalate, h1, h2]

theorem formatParams_ne_nil (format output rowFormat columnTypes : JSString) :
    formatParams format output rowFormat columnTypes ≠ [] := by
  unfold formatParams
  split_ifs <;> simp

theorem endpoint_formatParams (endpoint sep format output rowFormat columnTypes : JSString) :
    (if format == js "multipart" then
      if rowFormat == js "xml" then
        endpoint ++ (sep ++ js "row-format=" ++ rowFormat)
      else
        endpoint ++ (sep ++ js "output=" ++ output ++ js "&row-format=" ++ rowFormat
          ++ js "&column-types=" ++ columnTypes)
    else
      endpoint ++ (sep ++ js "output=" ++ output ++ js "&column-types=" ++ columnTypes))
    = endpoint ++ (sep ++ joinParams (formatParams format output rowFormat columnTypes)) := by
  rw [← formatParams_join]
  split_ifs <;> rfl

theorem query_of_legal (mb : JSString) (c : Client) (p : Plan) (o : Options)
    (hleg : legalOptions o) :
    query mb c p o =
      match bindingParams (o.bindings.getD []) with
      | .error e => .error e
      | .ok bps => .ok (queryOperation mb c p o bps) := by
  obtain ⟨hf, ho, hr, hc⟩ := hleg
  unfold query
  simp only [checkOption_of_legal _ _ _ _ _ hf, checkOption_of_legal _ _ _ _ _ ho,
    checkOption_of_legal _ _ _ _ _ hr, checkOption_of_legal _ _ _ _ _ hc,
    endpoint_formatParams]
  obtain ⟨f, fs, hfs⟩ := List.exists_cons_of_ne_nil (formatParams_ne_nil
    (optionValue (js "json") o.format) (optionValue (js "object") o.output)
    (optionValue (js "json") o.rowFormat) (optionValue (js "rows") o.columnTypes))
  cases hb : o.bindings with
  | none =>
    simp only [Option.getD_none, bindingParams, queryOperation, acceptFor, copyProperties,
      beq_iff_eq, hfs, path_of_no_bindings]
  | some b =>
    simp only [Option.getD_some, bindingsLoop_start]
    cases hps : bindingParams b with
    | error e => simp
    | ok bps =>
      cases bps with
      | nil =>
        simp only [queryOperation, acceptFor, copyProperties, beq_iff_eq, hfs,
          path_of_no_bindings]
      | cons q qs =>
        simp only [queryOperation, acceptFor, copyProperties, beq_iff_eq, hfs,
          path_of_bindings]

theorem query_of_illegal (mb : JSString) (c : Client) (p : Plan) (o : Options)
    (hleg : ¬ legalOptions o) : ∃ e, query mb c p o = .error e := by
  unfold query
  by_cases hf : legalOption [js "json", js "xml", js "json-seq", js "csv", js "multipart"]
      o.format
  · by_cases ho : legalOption [js "object", js "array"] o.output
    · by_cases hr : legalOption [js "json", js "xml"] o.rowFormat
      · by_cases hc : legalOption [js "rows", js "header"] o.columnTypes
        · exact absurd ⟨hf, ho, hr, hc⟩ hleg
        · simp only [checkOption_of_legal _ _ _ _ _ hf, checkOption_of_legal _ _ _ _ _ ho,
            checkOption_of_legal _ _ _ _ _ hr, checkOption_of_illegal _ _ _ _ _ hc]
          exact ⟨_, rfl⟩
      · simp only [checkOption_of_legal _ _ _ _ _ hf, checkOption_of_legal _ _ _ _ _ ho,
          checkOption_of_illegal _ _ _ _ _ hr]
        exact ⟨_, rfl⟩
    · simp only [checkOption_of_legal _ _ _ _ _ hf, checkOption_of_illegal _ _ _ _ _ ho]
      exact ⟨_, rfl⟩
  · simp only [checkOption_of_illegal _ _ _ _ _ hf]
    exact ⟨_, rfl⟩

theorem query_ok_iff (mb : JSString) (c : Client) (p : Plan) (o : Options) (op : Operation) :
    query mb c p o = .ok op ↔
      legalOptions o ∧ ∃ bps, bindingParams (o.bindings.getD []) = .ok bps ∧
        op = queryOperation mb c p o bps := by
  constructor
  · intro h
    by_cases hleg : legalOptions o
    · refine ⟨hleg, ?_⟩
      rw [query_of_legal mb c p o hleg] at h
      cases hb : bindingParams (o.bindings.getD []) with
      | error e => simp [hb] at h
      | ok bps =>
        simp only [hb, Except.ok.injEq] at h
        exact ⟨bps, rfl, h.symm⟩
    · obtain ⟨msg, hm⟩ := query_of_illegal mb c p o hleg
      simp [hm] at h
  · rintro ⟨hleg, bps, hb, rfl⟩
    rw [query_of_legal mb c p o hleg, hb]

theorem hexDigit_unreserved (d : Nat) : uriUnreserved (hexDigit d) = true := by
  unfold hexDigit
  have h := Nat.mod_lt d (by decide : 16 > 0)
  generalize d % 16 = k at h
  interval_cases k <;> rfl

theorem percentByte_safe (b : Nat) : ∀ x ∈ percentByte b, uriSafe x = true := by
  intro x hx
  simp only [percentByte, List.mem_cons, List.mem_singleton, List.not_mem_nil, or_false] at hx
  rcases hx with rfl | rfl | rfl
  · rfl
  · simp [uriSafe, hexDigit_unreserved]
  · simp [uriSafe, hexDigit_unreserved]

theorem percentEncode_safe (n : Nat) : ∀ x ∈ percentEncode n, uriSafe x = true := by
  intro x hx
  simp only [percentEncode, List.mem_flatMap] at hx
  obtain ⟨b, _, hb⟩ := hx
  exact percentByte_safe b x hb

theorem encodeUnits_safe (s : List Nat) :
    ∀ (pending : Option Nat) (t : JSString), encodeUnits pending s = .ok t →
      ∀ x ∈ t, uriSafe x = true := by
  induction s with
  | nil =>
    intro pending t h x hx
    cases pending with
    | none =>
      simp only [encodeUnits, Except.ok.injEq] at h
      subst h
      simp at hx
    | some high => simp [encodeUnits] at h
  | cons u rest ih =>
    intro pending t h x hx
    cases pending with
    | none =>
      rw [encodeUnits] at h
      split_ifs at h with h1 h2 h3
      · cases hr : encodeUnits none rest with
        | error e => simp [hr] at h
        | ok encoded =>
          simp only [hr, Except.ok.injEq] at h
          subst h
          simp only [List.mem_cons] at hx
          rcases hx with rfl | hx
          · simp [uriSafe, h1]
          · exact ih none encoded hr x hx
      · exact ih (some u) t h x hx
      · cases hr : encodeUnits none rest with
        | error e => simp [hr] at h
        | ok encoded =>
          simp only [hr, Except.ok.injEq] at h
          subst h
          simp only [List.mem_append] at hx
          rcases hx with hx | hx
          · exact percentEncode_safe _ x hx
          · exact ih none encoded hr x hx
    | some high =>
      rw [encodeUnits] at h
      split_ifs at h with h1
      cases hr : encodeUnits none rest with
      | error e => simp [hr] at h
      | ok encoded =>
        simp only [hr, Except.ok.injEq] at h
        subst h
        simp only [List.mem_append] at hx
        rcases hx with hx | hx
        · exact percentEncode_safe _ x hx
        · exact ih none encoded hr x hx

theorem encodeURIComponent_safe {v : JSVal} {t : JSString} (h : encodeURIComponent v = .ok t) :
    ∀ x ∈ t, uriSafe x = true := by
  unfold encodeURIComponent at h
  cases hs : v.toJSString with
  | error e => simp [hs] at h
  | ok s =>
    simp only [hs] at h
    exact encodeUnits_safe s none t h

theorem encodeUnits_unreserved (u : Nat) (rest : List Nat) (h : uriUnreserved u = true) :
    encodeUnits none (u :: rest) =
      match encodeUnits none rest with
      | .error e => .error e
      | .ok encoded => .ok (u :: encoded) := by
  rw [encodeUnits, if_pos h]

theorem encodeURIComponent_bind (name : JSString) :
    encodeURIComponent (.str (js "bind:" ++ name)) =
      match encodeUnits none name with
      | .error e => .error e
      | .ok encoded => .ok (js "bind%3A" ++ encoded) := by
  have hb : js "bind:" = [98, 105, 110, 100, 58] := by decide
  have hp : js "bind%3A" = [98, 105, 110, 100, 37, 51, 65] := by decide
  have hcolon : encodeUnits none (58 :: name) =
      match encodeUnits none name with
      | .error e => .error e
      | .ok encoded => .ok ([37, 51, 65] ++ encoded) := by
    rw [encodeUnits, if_neg (by decide), if_neg (by decide), if_neg (by decide)]
    rfl
  simp only [encodeURIComponent, JSVal.toJSString, hb, hp, List.cons_append, List.nil_append,
    encodeUnits_unreserved 98 _ (by decide), encodeUnits_unreserved 105 _ (by decide),
    encodeUnits_unreserved 110 _ (by decide), encodeUnits_unreserved 100 _ (by decide), hcolon]
  cases encodeUnits none name <;> rfl

theorem bindParameter_ok {name : JSString} {value : JSVal} {p : JSString}
    (h : bindParameter name value = .ok p) :
    ∃ a b, encodeUnits none name = .ok a ∧ encodeURIComponent value = .ok b ∧
      p = js "bind%3A" ++ a ++ js "=" ++ b := by
  unfold bindParameter at h
  rw [encodeURIComponent_bind] at h
  cases ha : encodeUnits none name with
  | error e => simp [ha] at h
  | ok a =>
    cases hb : encodeURIComponent value with
    | error e => simp [ha, hb] at h
    | ok b =>
      simp only [ha, hb, Except.ok.injEq] at h
      exact ⟨a, b, rfl, rfl, h.symm⟩

theorem bindingParam_ok {key : JSString} {obj : JSVal} {p : JSString}
    (h : bindingParam key obj = .ok p) :
    ∃ name value a b, bindingNameValue key obj = .ok (name, value) ∧
      encodeUnits none name = .ok a ∧ encodeURIComponent value = .ok b ∧
      p = js "bind%3A" ++ a ++ js "=" ++ b := by
  unfold bindingParam at h
  cases hnv : bindingNameValue key obj with
  | error e => simp [hnv] at h
  | ok nv =>
    obtain ⟨name, value⟩ := nv
    simp only [hnv] at h
    obtain ⟨a, b, ha, hb, hp⟩ := bindParameter_ok h
    exact ⟨name, value, a, b, rfl, ha, hb, hp⟩

theorem paramChar_ne_amp {x : Nat} (h : paramChar x = true) : x ≠ unit '&' := by
  rintro rfl
  exact absurd h (by decide)

theorem paramChar_ne_question {x : Nat} (h : paramChar x = true) : x ≠ unit '?' := by
  rintro rfl
  exact absurd h (by decide)

theorem queryParams_path (ps : List JSString) (hne : ps ≠ [])
    (hps : ∀ p ∈ ps, ∀ x ∈ p, paramChar x = true) :
    queryParams (js "/v1/rows?" ++ joinParams ps) = ps := by
  have h1 : (((js "/v1/rows?" ++ joinParams ps).dropWhile (· != unit '?')).drop 1)
      = [unit '&'].intercalate ps := by
    rfl
  unfold queryParams
  rw [h1, List.splitOn_intercalate]
  · intro l hl hamp
    exact paramChar_ne_amp (hps l hl _ hamp) rfl
  · exact hne

theorem bindingParam_chars {key : JSString} {obj : JSVal} {p : JSString}
    (h : bindingParam key obj = .ok p) : ∀ x ∈ p, paramChar x = true := by
  obtain ⟨name, value, a, b, _, ha, hb, rfl⟩ := bindingParam_ok h
  intro x hx
  simp only [List.mem_append] at hx
  rcases hx with ((hx | hx) | hx) | hx
  · revert x
    decide
  · simp [paramChar, encodeUnits_safe name none a ha x hx]
  · revert x
    decide
  · simp [paramChar, encodeURIComponent_safe hb x hx]

theorem bindingParam_hasName {key : JSString} {obj : JSVal} {p : JSString}
    (h : bindingParam key obj = .ok p) : js "bind%3A" <+: p := by
  obtain ⟨name, value, a, b, _, _, _, rfl⟩ := bindingParam_ok h
  simp only [List.append_assoc]
  exact List.prefix_append _ _

theorem bindingParams_ok_iff (entries : Props) (ps : List JSString) :
    bindingParams entries = .ok ps ↔
      List.Forall₂ (fun kv p => bindingParam kv.1 kv.2 = .ok p) entries ps := by
  induction entries generalizing ps with
  | nil =>
    cases ps <;> simp [bindingParams]
  | cons kv rest ih =>
    obtain ⟨key, obj⟩ := kv
    unfold bindingParams
    cases hp : bindingParam key obj with
    | error e =>
      constructor
      · intro h
        exact absurd h (by simp)
      · intro hc
        cases hc with
        | cons h1 _ => simp [hp] at h1
    | ok q =>
      cases hr : bindingParams rest with
      | error e =>
        constructor
        · intro h
          exact absurd h (by simp)
        · intro hc
          cases hc with
          | cons _ h2 => simp [(ih _).2 h2] at hr
      | ok qs =>
        simp only [Except.ok.injEq]
        constructor
        · rintro rfl
          exact List.Forall₂.cons hp ((ih qs).1 hr)
        · intro hc
          cases hc with
          | cons h1 h2 =>
            have e1 := h1
            simp only [hp, Except.ok.injEq] at e1
            have e2 := (ih _).2 h2
            simp only [hr, Except.ok.injEq] at e2
            rw [e1, e2]

theorem bindingParams_mem {entries : Props} {ps : List JSString}
    (h : bindingParams entries = .ok ps) {p : JSString} (hp : p ∈ ps) :
    ∃ kv ∈ entries, bindingParam kv.1 kv.2 = .ok p := by
  have hf := (bindingParams_ok_iff entries ps).1 h
  induction hf with
  | nil => simp at hp
  | cons h1 _ ih =>
    rename_i kv q rest qs hrest
    simp only [List.mem_cons] at hp
    rcases hp with rfl | hp
    · exact ⟨kv, List.mem_cons_self _ _, h1⟩
    · obtain ⟨kv', hm, hk⟩ := ih ((bindingParams_ok_iff _ _).2 hrest) hp
      exact ⟨kv', List.mem_cons_of_mem _ hm, hk⟩

theorem optionValue_mem {legal : List JSString} {v : JSVal} (dflt : JSString)
    (h : legalOption legal v) : optionValue dflt v ∈ dflt :: legal := by
  unfold optionValue
  rcases h with h | h
  · simp [h]
  · simp only [List.mem_map] at h
    obtain ⟨s, hs, rfl⟩ := h
    simp [JSVal.isSet, JSVal.stringValue, hs]

theorem formatParams_chars (o : Options) (hleg : legalOptions o) :
    ∀ p ∈ formatParams (optionValue (js "json") o.format) (optionValue (js "object") o.output)
      (optionValue (js "json") o.rowFormat) (optionValue (js "rows") o.columnTypes),
      ∀ x ∈ p, paramChar x = true := by
  obtain ⟨hf, ho, hr, hc⟩ := hleg
  have ho' := optionValue_mem (js "object") ho
  have hr' := optionValue_mem (js "json") hr
  have hc' := optionValue_mem (js "rows") hc
  have hvals : ∀ s ∈ [js "object", js "array", js "json", js "xml", js "rows", js "header"],
      ∀ x ∈ s, paramChar x = true := by decide
  have hlits : ∀ s ∈ [js "output=", js "row-format=", js "column-types="],
      ∀ x ∈ s, paramChar x = true := by decide
  have hO : ∀ x ∈ optionValue (js "object") o.output, paramChar x = true :=
    hvals _ (by simp only [List.mem_cons, List.mem_singleton, List.not_mem_nil] at ho' ⊢; tauto)
  have hR : ∀ x ∈ optionValue (js "json") o.rowFormat, paramChar x = true :=
    hvals _ (by simp only [List.mem_cons, List.mem_singleton, List.not_mem_nil] at hr' ⊢; tauto)
  have hC : ∀ x ∈ optionValue (js "rows") o.columnTypes, paramChar x = true :=
    hvals _ (by simp only [List.mem_cons, List.mem_singleton, List.not_mem_nil] at hc' ⊢; tauto)
  intro p hp x hx
  unfold formatParams at hp
  split_ifs at hp <;>
    simp only [List.mem_cons, List.mem_singleton, List.not_mem_nil, or_false] at hp
  · subst hp
    simp only [List.mem_append] at hx
    rcases hx with hx | hx
    · exact hlits _ (by simp) x hx
    · exact hR x hx
  · rcases hp with rfl | rfl | rfl <;>
      simp only [List.mem_append] at hx <;> rcases hx with hx | hx
    · exact hlits _ (by simp) x hx
    · exact hO x hx
    · exact hlits _ (by simp) x hx
    · exact hR x hx
    · exact hlits _ (by simp) x hx
    · exact hC x hx
  · rcases hp with rfl | rfl <;>
      simp only [List.mem_append] at hx <;> rcases hx with hx | hx
    · exact hlits _ (by simp) x hx
    · exact hO x hx
    · exact hlits _ (by simp) x hx
    · exact hC x hx

theorem queryOperation_path (mb : JSString) (c : Client) (p : Plan) (o : Options)
    (bps : List JSString) :
    (queryOperation mb c p o bps).path = js "/v1/rows?" ++ joinParams (bps ++ formatParams
      (optionValue (js "json") o.format) (optionValue (js "object") o.output)
      (optionValue (js "json") o.rowFormat) (optionValue (js "rows") o.columnTypes)) := by
  simp only [Operation.path, queryOperation, getProp_setProp_same, JSVal.stringValue]

theorem queryOperation_method (mb : JSString) (c : Client) (p : Plan) (o : Options)
    (bps : List JSString) : (queryOperation mb c p o bps).method = .str (js "POST") := by
  simp only [Operation.method, queryOperation]
  rw [getProp_setProp_other _ _ _ _ (by decide), getProp_setProp_other _ _ _ _ (by decide),
    getProp_setProp_same]

theorem queryOperation_headers (mb : JSString) (c : Client) (p : Plan) (o : Options)
    (bps : List JSString) :
    getProp (queryOperation mb c p o bps).options (js "headers") =
      .obj [(js "Content-Type", .str (js "application/json")),
        (js "Accept", .str (acceptFor mb (optionValue (js "json") o.format)))] := by
  simp only [queryOperation]
  rw [getProp_setProp_other _ _ _ _ (by decide), getProp_setProp_same]

theorem queryOperation_params (mb : JSString) (c : Client) (p : Plan) (o : Options)
    (bps : List JSString) (hleg : legalOptions o)
    (hb : bindingParams (o.bindings.getD []) = .ok bps) :
    queryParams (queryOperation mb c p o bps).path = bps ++ formatParams
      (optionValue (js "json") o.format) (optionValue (js "object") o.output)
      (optionValue (js "json") o.rowFormat) (optionValue (js "rows") o.columnTypes) := by
  rw [queryOperation_path]
  apply queryParams_path
  · simp [formatParams_ne_nil]
  · intro q hq
    rcases List.mem_append.1 hq with hq | hq
    · obtain ⟨kv, _, hk⟩ := bindingParams_mem hb hq
      exact bindingParam_chars hk
    · exact formatParams_chars o hleg q hq

theorem not_legalOption_iff (legal : List JSString) (v : JSVal) :
    ¬ legalOption legal v ↔ (v.isSet = true ∧ v ∉ legal.map JSVal.str) := by
  unfold legalOption
  cases h : v.isSet <;> simp

theorem optionValue_unset (dflt : JSString) {v : JSVal} (h : v.isSet = false) :
    optionValue dflt v = dflt := by
  simp only [optionValue, h, Bool.false_eq_true, if_false]

theorem optionValue_str (dflt s : JSString) : optionValue dflt (.str s) = s := rfl

theorem query_default_congr (mb : JSString) (c : Client) (p : Plan) (o o' : Options)
    (hb : o'.bindings = o.bindings) (hleg : legalOptions o ↔ legalOptions o')
    (hf : optionValue (js "json") o'.format = optionValue (js "json") o.format)
    (ho : optionValue (js "object") o'.output = optionValue (js "object") o.output)
    (hr : optionValue (js "json") o'.rowFormat = optionValue (js "json") o.rowFormat)
    (hc : optionValue (js "rows") o'.columnTypes = optionValue (js "rows") o.columnTypes)
    (op : Operation) : query mb c p o = .ok op ↔ query mb c p o' = .ok op := by
  have hq : ∀ bps, queryOperation mb c p o' bps = queryOperation mb c p o bps := by
    intro bps
    simp only [queryOperation, hf, ho, hr, hc]
  simp only [query_ok_iff, hb, hleg, hq]

/-- C1: for an options object without bindings, `query` throws (so that no
operation is built and handed to `requester.startRequest`) exactly when one of
`format`, `output`, `rowFormat`, `columnTypes` is neither `null` nor `undefined`
and is not in its legal set; and an option that is `null` or `undefined` is
never the cause of an error and yields the operation its default yields. -/
theorem query_throws_iff_illegal_option (mb : JSString) (c : Client) (p : Plan) (o : Options)
    (h : o.bindings = none) :
    ((∃ e, query mb c p o = .error e) ↔
      ((o.format.isSet = true ∧
          o.format ∉ [js "json", js "xml", js "json-seq", js "csv", js "multipart"].map JSVal.str) ∨
        (o.output.isSet = true ∧ o.output ∉ [js "object", js "array"].map JSVal.str) ∨
        (o.rowFormat.isSet = true ∧ o.rowFormat ∉ [js "json", js "xml"].map JSVal.str) ∨
        (o.columnTypes.isSet = true ∧ o.columnTypes ∉ [js "rows", js "header"].map JSVal.str))) ∧
    ((∃ e, query mb c p o = .error e) ↔ ∀ op, query mb c p o ≠ .ok op) ∧
    (o.format.isSet = false → ∀ op,
      query mb c p o = .ok op ↔ query mb c p { o with format := .str (js "json") } = .ok op) ∧
    (o.output.isSet = false → ∀ op,
      query mb c p o = .ok op ↔ query mb c p { o with output := .str (js "object") } = .ok op) ∧
    (o.rowFormat.isSet = false → ∀ op,
      query mb c p o = .ok op ↔ query mb c p { o with rowFormat := .str (js "json") } = .ok op) ∧
    (o.columnTypes.isSet = false → ∀ op,
      query mb c p o = .ok op ↔ query mb c p { o with columnTypes := .str (js "rows") } = .ok op) := by
  have hlegal : ∀ (legal : List JSString) (d : JSString) (v : JSVal), v.isSet = false →
      d ∈ legal → (legalOption legal v ↔ legalOption legal (.str d)) := by
    intro legal d v hv hd
    constructor
    · intro _
      exact Or.inr (List.mem_map.2 ⟨d, hd, rfl⟩)
    · intro _
      exact Or.inl hv
  refine ⟨?_, ?_, ?_, ?_, ?_, ?_⟩
  · rw [← not_legalOption_iff, ← not_legalOption_iff, ← not_legalOption_iff,
      ← not_legalOption_iff]
    have key : ∀ A B C D : Prop, (¬A ∨ ¬B ∨ ¬C ∨ ¬D) ↔ ¬(A ∧ B ∧ C ∧ D) := by
      intros
      tauto
    rw [key]
    constructor
    · rintro ⟨e, he⟩ hleg
      rw [query_of_legal mb c p o hleg, h] at he
      simp [bindingParams] at he
    · intro hleg
      obtain ⟨msg, hm⟩ := query_of_illegal mb c p o hleg
      exact ⟨_, hm⟩
  · cases hq : query mb c p o with
    | error e => simp
    | ok op => simp
  · intro hv
    apply query_default_congr
    · rfl
    · unfold legalOptions
      rw [hlegal _ (js "json") _ hv (by simp)]
    · rw [optionValue_unset _ hv, optionValue_str]
    · rfl
    · rfl
    · rfl
  · intro hv
    apply query_default_congr
    · rfl
    · unfold legalOptions
      rw [hlegal _ (js "object") _ hv (by simp)]
    · rfl
    · rw [optionValue_unset _ hv, optionValue_str]
    · rfl
    · rfl
  · intro hv
    apply query_default_congr
    · rfl
    · unfold legalOptions
      rw [hlegal _ (js "json") _ hv (by simp)]
    · rfl
    · rfl
    · rw [optionValue_unset _ hv, optionValue_str]
    · rfl
  · intro hv
    apply query_default_congr
    · rfl
    · unfold legalOptions
      rw [hlegal _ (js "rows") _ hv (by simp)]
    · rfl
    · rfl
    · rfl
    · rw [optionValue_unset _ hv, optionValue_str]

/-- Witness for C1: with `{format: 'yaml'}` and no bindings `query` throws. -/
theorem query_throws_iff_illegal_option_witness :
    ({ format := .str (js "yaml") } : Options).bindings = none ∧
    ∃ e, query (js "BOUNDARY") ⟨[]⟩ ⟨js "{}"⟩ { format := .str (js "yaml") } = .error e :=
  ⟨rfl, (query_throws_iff_illegal_option (js "BOUNDARY") ⟨[]⟩ ⟨js "{}"⟩ { format := .str (js "yaml") }
    rfl).1.2 (Or.inl ⟨rfl, by
      simp
      decide⟩)⟩

theorem not_hasName_of_bind {name b : JSString} (hn : name ∈ [js "output", js "column-types", js "row-format"])
    (hb : (js "bind%3A") <+: b) : ¬ hasName name b := by
  intro hc
  obtain ⟨t, ht⟩ := hb
  obtain ⟨u, hu⟩ := hc
  have h1 : b.head? = some (unit 'b') := by
    rw [← ht]
    rfl
  simp only [List.mem_cons, List.mem_singleton, List.not_mem_nil, or_false] at hn
  rcases hn with rfl | rfl | rfl
  · have h2 : b.head? = some (unit 'o') := by
      rw [← hu]
      rfl
    rw [h1] at h2
    exact absurd h2 (by decide)
  · have h2 : b.head? = some (unit 'c') := by
      rw [← hu]
      rfl
    rw [h1] at h2
    exact absurd h2 (by decide)
  · have h2 : b.head? = some (unit 'r') := by
      rw [← hu]
      rfl
    rw [h1] at h2
    exact absurd h2 (by decide)

theorem query_ok_params {mb : JSString} {c : Client} {p : Plan} {o : Options} {op : Operation}
    (h : query mb c p o = .ok op) :
    legalOptions o ∧ ∃ bps, bindingParams (o.bindings.getD []) = .ok bps ∧
      (∀ b ∈ bps, js "bind%3A" <+: b) ∧
      op.path = js "/v1/rows?" ++ joinParams (bps ++ formatParams
        (optionValue (js "json") o.format) (optionValue (js "object") o.output)
        (optionValue (js "json") o.rowFormat) (optionValue (js "rows") o.columnTypes)) ∧
      queryParams op.path = bps ++ formatParams
        (optionValue (js "json") o.format) (optionValue (js "object") o.output)
        (optionValue (js "json") o.rowFormat) (optionValue (js "rows") o.columnTypes) := by
  obtain ⟨hleg, bps, hb, rfl⟩ := (query_ok_iff mb c p o op).1 h
  refine ⟨hleg, bps, hb, ?_, queryOperation_path mb c p o bps,
    queryOperation_params mb c p o bps hleg hb⟩
  intro b hbm
  obtain ⟨kv, _, hk⟩ := bindingParams_mem hb hbm
  exact bindingParam_hasName hk

/-- C2, as stated, fails: with `{format: 'xml'}` the path is
`/v1/rows?output=object&column-types=rows`, which has an `output` and a
`column-types` parameter. -/
theorem xml_sends_output_counterexample :
    ∃ op, query (js "BOUNDARY") ⟨[]⟩ ⟨js "{}"⟩ { format := .str (js "xml") } = .ok op ∧
      op.path = js "/v1/rows?output=object&column-types=rows" ∧
      queryParams op.path = [js "output=object", js "column-types=rows"] ∧
      ¬ noParam (js "output") op.path ∧ ¬ noParam (js "column-types") op.path := by
  refine ⟨_, rfl, rfl, rfl, ?_, ?_⟩
  · intro hc
    exact hc (js "output=object") (by decide) ⟨js "object", rfl⟩
  · intro hc
    exact hc (js "column-types=rows") (by decide) ⟨js "rows", rfl⟩

/-- C2, amended: for legal options with format `xml` and any bindings, the
last parameter of the path is `column-types=<columnTypes>`, no parameter before
it has the name `column-types`, and there is no `row-format` parameter:
`columnTypes` is sent for the format `xml`. -/
theorem xml_format_params (mb : JSString) (c : Client) (p : Plan) (o : Options) (op : Operation)
    (hf : o.format = .str (js "xml")) (h : query mb c p o = .ok op) :
    ∃ pre, queryParams op.path
        = pre ++ [js "column-types=" ++ optionValue (js "rows") o.columnTypes] ∧
      (∀ q ∈ pre, ¬ hasName (js "column-types") q) ∧
      noParam (js "row-format") op.path := by
  obtain ⟨hleg, bps, hb, hbind, _, hq⟩ := query_ok_params h
  have hfmt : formatParams (optionValue (js "json") o.format) (optionValue (js "object") o.output)
      (optionValue (js "json") o.rowFormat) (optionValue (js "rows") o.columnTypes)
      = [js "output=" ++ optionValue (js "object") o.output,
        js "column-types=" ++ optionValue (js "rows") o.columnTypes] := by
    rw [hf, optionValue_str]
    rfl
  rw [hfmt] at hq
  have hout : ∀ name ∈ [js "column-types", js "row-format"],
      ¬ hasName name (js "output=" ++ optionValue (js "object") o.output) := by
    intro name hn
    rintro ⟨t, ht⟩
    have h1 : (js "output=" ++ optionValue (js "object") o.output).head? = some (unit 'o') :=
      rfl
    simp only [List.mem_cons, List.mem_singleton, List.not_mem_nil, or_false] at hn
    rcases hn with rfl | rfl
    · have h2 : (js "column-types" ++ js "=" ++ t).head? = some (unit 'c') := rfl
      rw [ht, h1] at h2
      exact absurd h2 (by decide)
    · have h2 : (js "row-format" ++ js "=" ++ t).head? = some (unit 'r') := rfl
      rw [ht, h1] at h2
      exact absurd h2 (by decide)
  refine ⟨bps ++ [js "output=" ++ optionValue (js "object") o.output], ?_, ?_, ?_⟩
  · rw [hq]
    simp
  · intro q hqm
    simp only [List.mem_append, List.mem_singleton] at hqm
    rcases hqm with hqm | rfl
    · exact not_hasName_of_bind (by simp) (hbind q hqm)
    · exact hout _ (by simp)
  · intro q hqm
    rw [hq] at hqm
    simp only [List.mem_append, List.mem_cons, List.mem_singleton, List.not_mem_nil,
      or_false] at hqm
    rcases hqm with hqm | rfl | rfl
    · exact not_hasName_of_bind (by simp) (hbind q hqm)
    · exact hout _ (by simp)
    · rintro ⟨t, ht⟩
      have h2 : (js "column-types=" ++ optionValue (js "rows") o.columnTypes).head?
          = some (unit 'c') := rfl
      have h3 : (js "row-format" ++ js "=" ++ t).head? = some (unit 'r') := rfl
      rw [ht, h2] at h3
      exact absurd h3 (by decide)

/-- Witness for C2, amended: `{format: 'xml', columnTypes: 'header'}` with the
bindings `{a: 1}`. -/
theorem xml_format_params_witness :
    ∃ op, query (js "BOUNDARY") ⟨[]⟩ ⟨js "{}"⟩
        { format := .str (js "xml"), columnTypes := .str (js "header")
          bindings := some [(js "a", .num (js "1"))] } = .ok op ∧
      ∃ pre, queryParams op.path = pre ++ [js "column-types=" ++ js "header"] ∧
        (∀ q ∈ pre, ¬ hasName (js "column-types") q) ∧
        noParam (js "row-format") op.path :=
  ⟨_, rfl, xml_format_params (js "BOUNDARY") ⟨[]⟩ ⟨js "{}"⟩
    { format := .str (js "xml"), columnTypes := .str (js "header")
      bindings := some [(js "a", .num (js "1"))] } _ rfl rfl⟩

/-- C3: for legal options with format `multipart` and any bindings, when
`rowFormat` is `xml` the parameters of the path are the bind parameters
followed by `row-format=xml` alone, so the path has no `output` and no
`column-types` parameter whatever `output` and `columnTypes` are; when
`rowFormat` is `json` or absent, they are the bind parameters followed by
`output=<output>`, `row-format=json` and `column-types=<columnTypes>`. -/
theorem multipart_format_params (mb : JSString) (c : Client) (p : Plan) (o : Options)
    (op : Operation) (hf : o.format = .str (js "multipart")) (h : query mb c p o = .ok op) :
    ∃ bps, bindingParams (o.bindings.getD []) = .ok bps ∧
      (∀ b ∈ bps, js "bind%3A" <+: b) ∧
      (o.rowFormat = .str (js "xml") →
        queryParams op.path = bps ++ [js "row-format=xml"] ∧
        noParam (js "output") op.path ∧ noParam (js "column-types") op.path) ∧
      (o.rowFormat = .str (js "json") ∨ o.rowFormat.isSet = false →
        queryParams op.path = bps ++ [js "output=" ++ optionValue (js "object") o.output,
          js "row-format=json", js "column-types=" ++ optionValue (js "rows") o.columnTypes]) := by
  obtain ⟨hleg, bps, hb, hbind, _, hq⟩ := query_ok_params h
  rw [hf, optionValue_str] at hq
  refine ⟨bps, hb, hbind, ?_, ?_⟩
  · intro hr
    rw [hr, optionValue_str] at hq
    have hq' : queryParams op.path = bps ++ [js "row-format=xml"] := hq
    refine ⟨hq', ?_, ?_⟩
    · intro q hqm
      rw [hq'] at hqm
      simp only [List.mem_append, List.mem_singleton] at hqm
      rcases hqm with hqm | rfl
      · exact not_hasName_of_bind (by simp) (hbind q hqm)
      · unfold hasName
        decide
    · intro q hqm
      rw [hq'] at hqm
      simp only [List.mem_append, List.mem_singleton] at hqm
      rcases hqm with hqm | rfl
      · exact not_hasName_of_bind (by simp) (hbind q hqm)
      · unfold hasName
        decide
  · intro hr
    have hv : optionValue (js "json") o.rowFormat = js "json" := by
      rcases hr with hr | hr
      · rw [hr, optionValue_str]
      · exact optionValue_unset _ hr
    rw [hv] at hq
    exact hq

/-- Witness for C3: `{format: 'multipart', rowFormat: 'xml', output: 'array'}`
with the bindings `{a: 1}`. -/
theorem multipart_format_params_witness :
    ∃ op, query (js "BOUNDARY") ⟨[]⟩ ⟨js "{}"⟩
        { format := .str (js "multipart"), rowFormat := .str (js "xml"), output := .str (js "array")
          bindings := some [(js "a", .num (js "1"))] } = .ok op ∧
      op.path = js "/v1/rows?bind%3Aa=1&row-format=xml" ∧
      ∃ bps, bindingParams [(js "a", .num (js "1"))] = .ok bps ∧
        (∀ b ∈ bps, js "bind%3A" <+: b) ∧
        (JSVal.str (js "xml") = .str (js "xml") →
          queryParams op.path = bps ++ [js "row-format=xml"] ∧
          noParam (js "output") op.path ∧ noParam (js "column-types") op.path) ∧
        (JSVal.str (js "xml") = .str (js "json") ∨ (JSVal.str (js "xml")).isSet = false →
          queryParams op.path = bps ++ [js "output=" ++ js "array",
            js "row-format=json", js "column-types=" ++ js "rows"]) :=
  ⟨_, rfl, rfl, multipart_format_params (js "BOUNDARY") ⟨[]⟩ ⟨js "{}"⟩
    { format := .str (js "multipart"), rowFormat := .str (js "xml"), output := .str (js "array")
      bindings := some [(js "a", .num (js "1"))] } _ rfl rfl⟩

theorem isSet_of_isString {v : JSVal} (h : v.isString = true) : v.isSet = true := by
  cases v <;> simp_all [JSVal.isString, JSVal.isSet]

theorem strictEqStr_iff (v : JSVal) (s : JSString) : v.strictEqStr s = true ↔ v = .str s := by
  cases v <;> simp [JSVal.strictEqStr]

theorem indexOfColon_gt_iff (s : JSString) : indexOfColon s > -1 ↔ unit ':' ∈ s := by
  unfold indexOfColon
  by_cases h : unit ':' ∈ s
  · have hc : s.contains (unit ':') = true := by simpa using h
    simp only [hc, if_true, h, iff_true]
    omega
  · simp [h]

theorem bindingNameValue_of_value {key : JSString} {obj value : JSVal}
    (hv : obj.get (js "value") = .ok value) (hne : value ≠ .undefined) :
    bindingNameValue key obj =
      if (obj.prop (js "type")).isSet = true ∧ (obj.prop (js "type")).isString = false then
        .error (.error (js "type must be string"))
      else if (obj.prop (js "type")).isSet = true ∧
          unit ':' ∈ (obj.prop (js "type")).stringValue then
        .error (.error (js "type cannot contain colon - " ++ (obj.prop (js "type")).stringValue))
      else if (obj.prop (js "lang")).isSet = true ∧ (obj.prop (js "lang")).isString = false then
        .error (.error (js "lang must be string"))
      else if (obj.prop (js "type")).isSet = true ∧ (obj.prop (js "lang")).isSet = true ∧
          (obj.prop (js "type")).strictEqStr (js "string") = false then
        .error (.error (js "cannot combine type with lang - "
          ++ (obj.prop (js "type")).stringValue ++ js " " ++ (obj.prop (js "lang")).stringValue))
      else .ok (wireName key (obj.prop (js "type")) (obj.prop (js "lang")), value) := by
  unfold bindingNameValue wireName
  rw [hv]
  cases value with
  | undefined => exact absurd rfl hne
  | _ =>
    simp only [Bool.and_eq_true, Bool.not_eq_true', indexOfColon_gt_iff, decide_eq_true_eq,
      and_assoc]
    generalize obj.prop (js "type") = t
    generalize obj.prop (js "lang") = l
    split_ifs <;> rfl

theorem bindingParams_mem_left {entries : Props} {ps : List JSString}
    (h : bindingParams entries = .ok ps) {kv : JSString × JSVal} (hkv : kv ∈ entries) :
    ∃ p ∈ ps, bindingParam kv.1 kv.2 = .ok p := by
  have hf := (bindingParams_ok_iff entries ps).1 h
  induction hf with
  | nil => simp at hkv
  | cons h1 _ ih =>
    rename_i kv' q rest qs hrest
    simp only [List.mem_cons] at hkv
    rcases hkv with rfl | hkv
    · exact ⟨q, List.mem_cons_self _ _, h1⟩
    · obtain ⟨p', hm, hk⟩ := ih ((bindingParams_ok_iff _ _).2 hrest) hkv
      exact ⟨p', List.mem_cons_of_mem _ hm, hk⟩

theorem query_ok_binding_mem {mb : JSString} {c : Client} {p : Plan} {o : Options}
    {op : Operation} {bindings : Props} {key : JSString} {obj : JSVal}
    (hb : o.bindings = some bindings) (hm : (key, obj) ∈ bindings)
    (h : query mb c p o = .ok op) :
    ∃ q ∈ queryParams op.path, bindingParam key obj = .ok q := by
  obtain ⟨_, bps, hbps, _, _, hq⟩ := query_ok_params h
  rw [hb, Option.getD_some] at hbps
  obtain ⟨q, hq1, hq2⟩ := bindingParams_mem_left hbps hm
  exact ⟨q, by rw [hq]; exact List.mem_append_left _ hq1, hq2⟩

theorem query_error_of_binding_error {mb : JSString} {c : Client} {p : Plan} {o : Options}
    {bindings : Props} {key : JSString} {obj : JSVal} {e : JSError}
    (hb : o.bindings = some bindings) (hm : (key, obj) ∈ bindings)
    (he : bindingParam key obj = .error e) : ∃ e', query mb c p o = .error e' := by
  cases hq : query mb c p o with
  | error e' => exact ⟨e', rfl⟩
  | ok op =>
    obtain ⟨q, _, hq2⟩ := query_ok_binding_mem hb hm hq
    rw [he] at hq2
    exact absurd hq2 (by simp)

theorem bindingParam_of_nameValue {key : JSString} {obj : JSVal} {name : JSString}
    {value : JSVal} (h : bindingNameValue key obj = .ok (name, value)) :
    bindingParam key obj = bindParameter name value := by
  simp only [bindingParam, h]

theorem bindingParam_of_error {key : JSString} {obj : JSVal} {e : JSError}
    (h : bindingNameValue key obj = .error e) : bindingParam key obj = .error e := by
  simp only [bindingParam, h]

theorem encodeUnits_error {pending : Option Nat} {units : List Nat} {e : JSError}
    (h : encodeUnits pending units = .error e) : e = .uriError := by
  induction units generalizing pending e with
  | nil =>
    cases pending with
    | none => simp [encodeUnits] at h
    | some high =>
      simp only [encodeUnits, Except.error.injEq] at h
      exact h.symm
  | cons u rest ih =>
    cases pending with
    | none =>
      unfold encodeUnits at h
      split_ifs at h with h1 h2 h3
      · cases hr : encodeUnits none rest with
        | error e' =>
          simp only [hr, Except.error.injEq] at h
          rw [← h]
          exact ih hr
        | ok t => simp [hr] at h
      · simp only [Except.error.injEq] at h
        exact h.symm
      · exact ih h
      · cases hr : encodeUnits none rest with
        | error e' =>
          simp only [hr, Except.error.injEq] at h
          rw [← h]
          exact ih hr
        | ok t => simp [hr] at h
    | some high =>
      unfold encodeUnits at h
      split_ifs at h with h1
      · cases hr : encodeUnits none rest with
        | error e' =>
          simp only [hr, Except.error.injEq] at h
          rw [← h]
          exact ih hr
        | ok t => simp [hr] at h
      · simp only [Except.error.injEq] at h
        exact h.symm

theorem toJSString_error {v : JSVal} {e : JSError} (h : v.toJSString = .error e) :
    e = .typeError := by
  cases v with
  | obj props =>
    simp only [JSVal.toJSString] at h
    split_ifs at h
    simp only [Except.error.injEq] at h
    exact h.symm
  | bool b => cases b <;> simp [JSVal.toJSString] at h
  | _ => simp [JSVal.toJSString] at h

theorem encodeURIComponent_error {v : JSVal} {e : JSError}
    (h : encodeURIComponent v = .error e) : e = .uriError ∨ e = .typeError := by
  unfold encodeURIComponent at h
  cases hs : v.toJSString with
  | error e' =>
    simp only [hs, Except.error.injEq] at h
    rw [← h]
    exact Or.inr (toJSString_error hs)
  | ok s =>
    simp only [hs] at h
    exact Or.inl (encodeUnits_error h)

theorem bindParameter_error {name : JSString} {value : JSVal} {e : JSError}
    (h : bindParameter name value = .error e) : e = .uriError ∨ e = .typeError := by
  unfold bindParameter at h
  cases hn : encodeURIComponent (.str (js "bind:" ++ name)) with
  | error e' =>
    simp only [hn, Except.error.injEq] at h
    rw [← h]
    exact encodeURIComponent_error hn
  | ok a =>
    cases hval : encodeURIComponent value with
    | error e' =>
      simp only [hn, hval, Except.error.injEq] at h
      rw [← h]
      exact encodeURIComponent_error hval
    | ok b => simp [hn, hval] at h

theorem bindingParams_append (pre post : Props) :
    bindingParams (pre ++ post) =
      match bindingParams pre with
      | .error e => .error e
      | .ok a =>
        match bindingParams post with
        | .error e => .error e
        | .ok b => .ok (a ++ b) := by
  induction pre with
  | nil =>
    simp only [List.nil_append, bindingParams]
    cases bindingParams post <;> rfl
  | cons kv rest ih =>
    obtain ⟨k, v⟩ := kv
    simp only [List.cons_append, bindingParams]
    cases hq : bindingParam k v with
    | error e => rfl
    | ok q =>
      have happ : rest.append post = rest ++ post := rfl
      simp only [happ]
      rw [ih]
      cases bindingParams rest with
      | error e => rfl
      | ok a =>
        cases bindingParams post <;> rfl

theorem bindingParams_first_error (pre post : Props) (key : JSString) (obj : JSVal)
    (e : JSError) (hpre : ∀ kv ∈ pre, ∃ q, bindingParam kv.1 kv.2 = .ok q)
    (he : bindingParam key obj = .error e) :
    bindingParams (pre ++ (key, obj) :: post) = .error e := by
  induction pre with
  | nil => simp only [List.nil_append, bindingParams, he]
  | cons kv rest ih =>
    obtain ⟨k, v⟩ := kv
    obtain ⟨q, hq⟩ := hpre (k, v) (List.mem_cons_self _ _)
    have hrest := ih (fun kv hkv => hpre kv (List.mem_cons_of_mem _ hkv))
    simp only [List.cons_append, bindingParams, hq]
    change (match bindingParams (rest ++ (key, obj) :: post) with
      | .error e => .error e
      | .ok ps => .ok (q :: ps)) = Except.error e
    rw [hrest]

theorem bindingParams_at {pre post : Props} {key : JSString} {obj : JSVal}
    {prePs postPs : List JSString} {q : JSString}
    (hpre : bindingParams pre = .ok prePs) (hq : bindingParam key obj = .ok q)
    (hpost : bindingParams post = .ok postPs) :
    bindingParams (pre ++ (key, obj) :: post) = .ok (prePs ++ q :: postPs) := by
  rw [bindingParams_append, hpre]
  simp only [bindingParams, hq, hpost]

theorem query_binding_emitted (mb : JSString) (c : Client) (p : Plan) {o : Options}
    {pre post : Props} {key : JSString} {obj : JSVal} {prePs postPs : List JSString}
    {q : JSString} (hleg : legalOptions o) (hb : o.bindings = some (pre ++ (key, obj) :: post))
    (hpre : bindingParams pre = .ok prePs) (hq : bindingParam key obj = .ok q)
    (hpost : bindingParams post = .ok postPs) :
    ∃ op, query mb c p o = .ok op ∧
      queryParams op.path = prePs ++ q :: postPs ++ formatParams
        (optionValue (js "json") o.format) (optionValue (js "object") o.output)
        (optionValue (js "json") o.rowFormat) (optionValue (js "rows") o.columnTypes) := by
  have hall : bindingParams (o.bindings.getD []) = .ok (prePs ++ q :: postPs) := by
    rw [hb, Option.getD_some]
    exact bindingParams_at hpre hq hpost
  refine ⟨queryOperation mb c p o (prePs ++ q :: postPs), ?_, ?_⟩
  · rw [query_of_legal mb c p o hleg, hall]
  · rw [queryOperation_params mb c p o _ hleg hall]

theorem query_binding_error (mb : JSString) (c : Client) (p : Plan) {o : Options}
    {pre post : Props} {key : JSString} {obj : JSVal} {prePs : List JSString} {e : JSError}
    (hleg : legalOptions o) (hb : o.bindings = some (pre ++ (key, obj) :: post))
    (hpre : bindingParams pre = .ok prePs) (he : bindingParam key obj = .error e) :
    query mb c p o = .error e := by
  rw [query_of_legal mb c p o hleg, hb, Option.getD_some,
    bindingParams_first_error pre post key obj e ?_ he]
  intro kv hkv
  obtain ⟨q, _, hq⟩ := bindingParams_mem_left hpre hkv
  exact ⟨q, hq⟩

theorem query_single_binding (mb : JSString) (c : Client) (p : Plan) (o : Options)
    (key : JSString) (obj : JSVal) (hleg : legalOptions o)
    (hb : o.bindings = some [(key, obj)]) :
    query mb c p o =
      match bindingParam key obj with
      | .error e => .error e
      | .ok q => .ok (queryOperation mb c p o [q]) := by
  rw [query_of_legal mb c p o hleg, hb, Option.getD_some]
  simp only [bindingParams]
  cases bindingParam key obj <;> rfl

theorem bindingNameValue_valid {key : JSString} {obj value : JSVal}
    (hv : obj.get (js "value") = .ok value) (hne : value ≠ .undefined)
    (ht : typeValid (obj.prop (js "type"))) (hl : langValid (obj.prop (js "lang")))
    (hc : comboValid (obj.prop (js "type")) (obj.prop (js "lang"))) :
    bindingNameValue key obj
      = .ok (wireName key (obj.prop (js "type")) (obj.prop (js "lang")), value) := by
  rw [bindingNameValue_of_value hv hne]
  have h1 : ¬ ((obj.prop (js "type")).isSet = true ∧
      (obj.prop (js "type")).isString = false) := by
    rintro ⟨h1, h2⟩
    rcases ht with ht | ht
    · rw [ht] at h1
      exact absurd h1 (by decide)
    · rw [ht.1] at h2
      exact absurd h2 (by decide)
  have h2 : ¬ ((obj.prop (js "type")).isSet = true ∧
      unit ':' ∈ (obj.prop (js "type")).stringValue) := by
    rintro ⟨h1, h2⟩
    rcases ht with ht | ht
    · rw [ht] at h1
      exact absurd h1 (by decide)
    · exact ht.2 h2
  have h3 : ¬ ((obj.prop (js "lang")).isSet = true ∧
      (obj.prop (js "lang")).isString = false) := by
    rintro ⟨h1, h2⟩
    rcases hl with hl | hl
    · rw [hl] at h1
      exact absurd h1 (by decide)
    · rw [hl] at h2
      exact absurd h2 (by decide)
  have h4 : ¬ ((obj.prop (js "type")).isSet = true ∧ (obj.prop (js "lang")).isSet = true ∧
      (obj.prop (js "type")).strictEqStr (js "string") = false) := by
    rintro ⟨h1, h2, h3⟩
    apply hc
    refine ⟨h1, h2, ?_⟩
    intro heq
    rw [(strictEqStr_iff _ _).2 heq] at h3
    exact absurd h3 (by decide)
  rw [if_neg h1, if_neg h2, if_neg h3, if_neg h4]

/-- C4: for a binding with a `value` sub-field whose `type` and `lang` pass
validation, the loop body computes the wire name `key@lang` when `lang` is
present (also when `type` is `string`), `key:type` when `type` is present
without `lang`, and `key` otherwise, and evaluates
`encodeURIComponent('bind:' + wireName) + '=' + encodeURIComponent(value)`.
With legal options, and the bindings before and after it encoding, `query`
returns an operation whose path has that parameter at the position of the
binding, when the expression has a result, and throws the error of the
expression when it throws. The bindings `{a:{value:'x', type:'int'}}`,
`{a:{value:'x', lang:'en'}}` and `{a:{value:'x', type:'string', lang:'en'}}`
give the paths with `bind%3Aa%3Aint=x`, `bind%3Aa%40en=x` and
`bind%3Aa%40en=x`. -/
theorem binding_wire_name (key : JSString) (obj value : JSVal)
    (hv : obj.get (js "value") = .ok value) (hne : value ≠ .undefined)
    (ht : typeValid (obj.prop (js "type"))) (hl : langValid (obj.prop (js "lang")))
    (hc : comboValid (obj.prop (js "type")) (obj.prop (js "lang"))) :
    bindingNameValue key obj
      = .ok (wireName key (obj.prop (js "type")) (obj.prop (js "lang")), value) ∧
    bindingParam key obj
      = bindParameter (wireName key (obj.prop (js "type")) (obj.prop (js "lang"))) value ∧
    (∀ mb c p o pre post prePs postPs param, legalOptions o →
      o.bindings = some (pre ++ (key, obj) :: post) →
      bindingParams pre = .ok prePs → bindingParams post = .ok postPs →
      bindParameter (wireName key (obj.prop (js "type")) (obj.prop (js "lang"))) value
        = .ok param →
      ∃ op, query mb c p o = .ok op ∧
        queryParams op.path = prePs ++ param :: postPs ++ formatParams
          (optionValue (js "json") o.format) (optionValue (js "object") o.output)
          (optionValue (js "json") o.rowFormat) (optionValue (js "rows") o.columnTypes)) ∧
    (∀ mb c p o pre post prePs e, legalOptions o →
      o.bindings = some (pre ++ (key, obj) :: post) → bindingParams pre = .ok prePs →
      bindParameter (wireName key (obj.prop (js "type")) (obj.prop (js "lang"))) value
        = .error e →
      query mb c p o = .error e) ∧
    (∀ mb c p, ∃ op,
      query mb c p { bindings := some [(js "a", .obj [(js "value", .str (js "x")),
        (js "type", .str (js "int"))])] } = .ok op ∧
      op.path = js "/v1/rows?bind%3Aa%3Aint=x&output=object&column-types=rows") ∧
    (∀ mb c p, ∃ op,
      query mb c p { bindings := some [(js "a", .obj [(js "value", .str (js "x")),
        (js "lang", .str (js "en"))])] } = .ok op ∧
      op.path = js "/v1/rows?bind%3Aa%40en=x&output=object&column-types=rows") ∧
    (∀ mb c p, ∃ op,
      query mb c p { bindings := some [(js "a", .obj [(js "value", .str (js "x")),
        (js "type", .str (js "string")), (js "lang", .str (js "en"))])] } = .ok op ∧
      op.path = js "/v1/rows?bind%3Aa%40en=x&output=object&column-types=rows") := by
  have hnv := @bindingNameValue_valid key obj value hv hne ht hl hc
  have hbp := bindingParam_of_nameValue hnv
  refine ⟨hnv, hbp, ?_, ?_, ?_, ?_, ?_⟩
  · intro mb c p o pre post prePs postPs param hleg hb hpre hpost hparam
    exact query_binding_emitted mb c p hleg hb hpre (hbp.trans hparam) hpost
  · intro mb c p o pre post prePs e hleg hb hpre he
    exact query_binding_error mb c p hleg hb hpre (hbp.trans he)
  · intro mb c p
    refine ⟨_, rfl, ?_⟩
    simp only [Operation.path, getProp_setProp_same]
    rfl
  · intro mb c p
    refine ⟨_, rfl, ?_⟩
    simp only [Operation.path, getProp_setProp_same]
    rfl
  · intro mb c p
    refine ⟨_, rfl, ?_⟩
    simp only [Operation.path, getProp_setProp_same]
    rfl

/-- Witness for C4: `query` with the bindings `{a: {value: 'x', type: 'int'}}`
and default options returns an operation whose parameters are
`bind%3Aa%3Aint=x`, `output=object` and `column-types=rows`. -/
theorem binding_wire_name_witness :
    ∃ op, query (js "BOUNDARY") ⟨[]⟩ ⟨js "{}"⟩
        { bindings := some [(js "a", .obj [(js "value", .str (js "x")),
          (js "type", .str (js "int"))])] } = .ok op ∧
      queryParams op.path
        = [js "bind%3Aa%3Aint=x", js "output=object", js "column-types=rows"] :=
  (binding_wire_name (js "a") (.obj [(js "value", .str (js "x")), (js "type", .str (js "int"))])
    (.str (js "x")) rfl (by simp) (Or.inr ⟨rfl, by decide⟩) (Or.inl rfl)
    (by rintro ⟨_, h, _⟩; exact absurd h (by decide))).2.2.1 (js "BOUNDARY") ⟨[]⟩ ⟨js "{}"⟩
    { bindings := some [(js "a", .obj [(js "value", .str (js "x")),
      (js "type", .str (js "int"))])] } [] [] [] [] (js "bind%3Aa%3Aint=x")
    ⟨Or.inl rfl, Or.inl rfl, Or.inl rfl, Or.inl rfl⟩ rfl rfl rfl rfl

/-- C5, as stated, fails: the binding `a: {value: '\uD800', type: 'string',
lang: 'en'}` has a `value` sub-field, the string type `string` and a string
`lang`, and `query` throws all the same, a `URIError` from
`encodeURIComponent` at the unpaired surrogate of the value. -/
theorem type_with_lang_counterexample :
    (JSVal.obj [(js "value", .str [0xD800]), (js "type", .str (js "string")),
      (js "lang", .str (js "en"))]).prop (js "type") = .str (js "string") ∧
    query (js "BOUNDARY") ⟨[]⟩ ⟨js "{}"⟩
      { bindings := some [(js "a", .obj [(js "value", .str [0xD800]),
        (js "type", .str (js "string")), (js "lang", .str (js "en"))])] }
      = .error .uriError :=
  ⟨rfl, rfl⟩

/-- C5, amended: for a binding with a `value` sub-field in which `type` and
`lang` are both strings and `type` has no colon, the loop body throws the error
`cannot combine type with lang` exactly when `type` is not the string `string`;
when `type` is `string` it evaluates the expression of the wire name `key@lang`,
as it does for the binding without the type. So `query`, given legal options
and this binding alone, throws that error exactly when `type` is not `string`,
and for the type `string` returns an operation with the parameter when the
encoding has a result and throws its error when it throws.
`{a:{value:'x', type:'string', lang:'en'}}` gives the operation that
`{a:{value:'x', lang:'en'}}` gives, and `{a:{value:'x', type:'int', lang:'en'}}`
gives the error `cannot combine type with lang - int en`. -/
theorem type_with_lang (key : JSString) (obj value : JSVal)
    (hv : obj.get (js "value") = .ok value) (hne : value ≠ .undefined)
    (hts : (obj.prop (js "type")).isString = true)
    (hls : (obj.prop (js "lang")).isString = true)
    (hcolon : unit ':' ∉ (obj.prop (js "type")).stringValue) :
    (bindingParam key obj = .error (.error (js "cannot combine type with lang - "
        ++ (obj.prop (js "type")).stringValue ++ js " " ++ (obj.prop (js "lang")).stringValue))
      ↔ obj.prop (js "type") ≠ .str (js "string")) ∧
    (obj.prop (js "type") = .str (js "string") →
      bindingParam key obj
        = bindParameter (key ++ js "@" ++ (obj.prop (js "lang")).stringValue) value) ∧
    (obj.prop (js "type") = .str (js "string") →
      bindingParam key obj
        = bindingParam key (.obj [(js "value", value), (js "lang", obj.prop (js "lang"))])) ∧
    (∀ mb c p o, legalOptions o → o.bindings = some [(key, obj)] →
      (query mb c p o = .error (.error (js "cannot combine type with lang - "
          ++ (obj.prop (js "type")).stringValue ++ js " "
          ++ (obj.prop (js "lang")).stringValue))
        ↔ obj.prop (js "type") ≠ .str (js "string")) ∧
      (obj.prop (js "type") = .str (js "string") → ∀ param,
        bindParameter (key ++ js "@" ++ (obj.prop (js "lang")).stringValue) value = .ok param →
        ∃ op, query mb c p o = .ok op ∧
          queryParams op.path = param :: formatParams
            (optionValue (js "json") o.format) (optionValue (js "object") o.output)
            (optionValue (js "json") o.rowFormat) (optionValue (js "rows") o.columnTypes)) ∧
      (obj.prop (js "type") = .str (js "string") → ∀ e,
        bindParameter (key ++ js "@" ++ (obj.prop (js "lang")).stringValue) value = .error e →
        query mb c p o = .error e)) ∧
    (∀ mb c p,
      query mb c p { bindings := some [(js "a", .obj [(js "value", .str (js "x")),
          (js "type", .str (js "string")), (js "lang", .str (js "en"))])] }
        = query mb c p { bindings := some [(js "a", .obj [(js "value", .str (js "x")),
          (js "lang", .str (js "en"))])] } ∧
      (∃ op, query mb c p { bindings := some [(js "a", .obj [(js "value", .str (js "x")),
          (js "type", .str (js "string")), (js "lang", .str (js "en"))])] } = .ok op ∧
        op.path = js "/v1/rows?bind%3Aa%40en=x&output=object&column-types=rows")) ∧
    (∀ mb c p,
      query mb c p { bindings := some [(js "a", .obj [(js "value", .str (js "x")),
          (js "type", .str (js "int")), (js "lang", .str (js "en"))])] }
        = .error (.error (js "cannot combine type with lang - int en"))) := by
  have hnv := @bindingNameValue_of_value key obj value hv hne
  have h1 : ¬ ((obj.prop (js "type")).isSet = true ∧
      (obj.prop (js "type")).isString = false) := by
    rintro ⟨_, h2⟩
    rw [hts] at h2
    exact absurd h2 (by decide)
  have h2 : ¬ ((obj.prop (js "type")).isSet = true ∧
      unit ':' ∈ (obj.prop (js "type")).stringValue) :=
    fun h => hcolon h.2
  have h3 : ¬ ((obj.prop (js "lang")).isSet = true ∧
      (obj.prop (js "lang")).isString = false) := by
    rintro ⟨_, h2⟩
    rw [hls] at h2
    exact absurd h2 (by decide)
  rw [if_neg h1, if_neg h2, if_neg h3] at hnv
  have hbad : obj.prop (js "type") ≠ .str (js "string") →
      bindingParam key obj = .error (.error (js "cannot combine type with lang - "
        ++ (obj.prop (js "type")).stringValue ++ js " "
        ++ (obj.prop (js "lang")).stringValue)) := by
    intro hn
    have h4 : (obj.prop (js "type")).isSet = true ∧ (obj.prop (js "lang")).isSet = true ∧
        (obj.prop (js "type")).strictEqStr (js "string") = false := by
      refine ⟨isSet_of_isString hts, isSet_of_isString hls, ?_⟩
      cases hs : (obj.prop (js "type")).strictEqStr (js "string")
      · rfl
      · exact absurd ((strictEqStr_iff _ _).1 hs) hn
    rw [if_pos h4] at hnv
    exact bindingParam_of_error hnv
  have hw : ∀ t : JSVal, wireName key t (obj.prop (js "lang"))
      = key ++ js "@" ++ (obj.prop (js "lang")).stringValue := by
    intro t
    simp only [wireName, isSet_of_isString hls, if_true]
  have hgood : obj.prop (js "type") = .str (js "string") →
      bindingParam key obj
        = bindParameter (key ++ js "@" ++ (obj.prop (js "lang")).stringValue) value := by
    intro heq
    have h4 : ¬ ((obj.prop (js "type")).isSet = true ∧ (obj.prop (js "lang")).isSet = true ∧
        (obj.prop (js "type")).strictEqStr (js "string") = false) := by
      rintro ⟨_, _, h⟩
      rw [(strictEqStr_iff _ _).2 heq] at h
      exact absurd h (by decide)
    rw [if_neg h4, hw] at hnv
    exact bindingParam_of_nameValue hnv
  have hiff : bindingParam key obj = .error (.error (js "cannot combine type with lang - "
        ++ (obj.prop (js "type")).stringValue ++ js " " ++ (obj.prop (js "lang")).stringValue))
      ↔ obj.prop (js "type") ≠ .str (js "string") := by
    constructor
    · intro he heq
      rw [hgood heq] at he
      rcases bindParameter_error he with h | h <;> exact absurd h (by simp)
    · exact hbad
  have hwithout : bindingParam key (.obj [(js "value", value), (js "lang", obj.prop (js "lang"))])
      = bindParameter (key ++ js "@" ++ (obj.prop (js "lang")).stringValue) value := by
    have hl' : (JSVal.obj [(js "value", value), (js "lang", obj.prop (js "lang"))]).prop
        (js "lang") = obj.prop (js "lang") := rfl
    have ht' : (JSVal.obj [(js "value", value), (js "lang", obj.prop (js "lang"))]).prop
        (js "type") = .undefined := rfl
    have hnv' := @bindingNameValue_valid key
      (.obj [(js "value", value), (js "lang", obj.prop (js "lang"))]) value rfl hne
      (by rw [ht']; exact Or.inl rfl) (by rw [hl']; exact Or.inr hls)
      (by
        rw [ht']
        rintro ⟨h, _⟩
        exact absurd h (by decide))
    rw [hl', hw] at hnv'
    exact bindingParam_of_nameValue hnv'
  refine ⟨hiff, hgood, fun heq => (hgood heq).trans hwithout.symm, ?_, ?_, ?_⟩
  · intro mb c p o hleg hb
    refine ⟨?_, ?_, ?_⟩
    · rw [← hiff, query_single_binding mb c p o key obj hleg hb]
      cases bindingParam key obj <;> simp
    · intro heq param hparam
      exact @query_binding_emitted mb c p o [] [] key obj [] [] param hleg hb rfl
        ((hgood heq).trans hparam) rfl
    · intro heq e he
      exact @query_binding_error mb c p o [] [] key obj [] e hleg hb rfl
        ((hgood heq).trans he)
  · intro mb c p
    exact ⟨rfl, _, rfl, by
      simp only [Operation.path, getProp_setProp_same]
      rfl⟩
  · intro mb c p
    rfl

/-- Witness for C5, amended: the binding `a: {value: 'x', type: 'int',
lang: 'en'}` with default options. -/
theorem type_with_lang_witness :
    query (js "BOUNDARY") ⟨[]⟩ ⟨js "{}"⟩
      { bindings := some [(js "a", .obj [(js "value", .str (js "x")),
        (js "type", .str (js "int")), (js "lang", .str (js "en"))])] }
      = .error (.error (js "cannot combine type with lang - int en")) :=
  ((type_with_lang (js "a") (.obj [(js "value", .str (js "x")), (js "type", .str (js "int")),
      (js "lang", .str (js "en"))]) (.str (js "x")) rfl (by simp) rfl rfl
    (by decide)).2.2.2.1 (js "BOUNDARY") ⟨[]⟩ ⟨js "{}"⟩
    { bindings := some [(js "a", .obj [(js "value", .str (js "x")),
      (js "type", .str (js "int")), (js "lang", .str (js "en"))])] }
    ⟨Or.inl rfl, Or.inl rfl, Or.inl rfl, Or.inl rfl⟩ rfl).1.2
    (fun h => absurd (show js "int" = js "string" from JSVal.str.inj h) (by decide))

theorem bindingParam_of_value {key : JSString} {obj value : JSVal}
    (hv : obj.get (js "value") = .ok value) (hne : value ≠ .undefined) :
    bindingParam key obj =
      if (obj.prop (js "type")).isSet = true ∧ (obj.prop (js "type")).isString = false then
        .error (.error (js "type must be string"))
      else if (obj.prop (js "type")).isSet = true ∧
          unit ':' ∈ (obj.prop (js "type")).stringValue then
        .error (.error (js "type cannot contain colon - " ++ (obj.prop (js "type")).stringValue))
      else if (obj.prop (js "lang")).isSet = true ∧ (obj.prop (js "lang")).isString = false then
        .error (.error (js "lang must be string"))
      else if (obj.prop (js "type")).isSet = true ∧ (obj.prop (js "lang")).isSet = true ∧
          (obj.prop (js "type")).strictEqStr (js "string") = false then
        .error (.error (js "cannot combine type with lang - "
          ++ (obj.prop (js "type")).stringValue ++ js " " ++ (obj.prop (js "lang")).stringValue))
      else bindParameter (wireName key (obj.prop (js "type")) (obj.prop (js "lang"))) value := by
  unfold bindingParam
  rw [bindingNameValue_of_value hv hne]
  split_ifs <;> rfl

theorem bindParameter_not_message {name : JSString} {value : JSVal} {msg : JSString} :
    bindParameter name value ≠ .error (.error msg) := by
  intro h
  rcases bindParameter_error h with h | h <;> exact absurd h (by simp)

/-- C6, as stated, fails: the binding `a: {value: 'x', lang: '\uD800'}` has a
`value` sub-field, a string `lang` and no `type`, and `query` does not accept
it: it throws a `URIError` from `encodeURIComponent` at the unpaired surrogate
of the wire name. -/
theorem type_lang_validation_counterexample :
    (JSVal.obj [(js "value", .str (js "x")), (js "lang", .str [0xD800])]).prop (js "lang")
      = .str [0xD800] ∧
    (JSVal.obj [(js "value", .str (js "x")), (js "lang", .str [0xD800])]).prop (js "type")
      = .undefined ∧
    query (js "BOUNDARY") ⟨[]⟩ ⟨js "{}"⟩
      { bindings := some [(js "a", .obj [(js "value", .str (js "x")),
        (js "lang", .str [0xD800])])] }
      = .error .uriError :=
  ⟨rfl, rfl, rfl⟩

/-- C6, amended: for a binding with a `value` sub-field, the loop body throws
`type must be string` when `type` is present and not a string, `type cannot
contain colon` when `type` is a string with a colon, and throws when `lang` is
present and not a string (`lang must be string` when `type` passed); a `type`
or `lang` that is `null` or `undefined` is absent, so that an error with a
message can only come from the other one; and a string `type` without colon and
no `lang`, or a string `lang` and no `type`, passes validation: the loop
evaluates the expression of the wire name `key:type` or `key@lang`. `query`
throws for bindings with an entry that fails these checks; from legal options
and one binding that passes it returns an operation with the parameter when
the encoding has a result, and the only errors it throws are the `URIError` and
`TypeError` of the encoding. `{a:{value:'x', type:'int'}}` is accepted. -/
theorem type_lang_validation (key : JSString) (obj value : JSVal)
    (hv : obj.get (js "value") = .ok value) (hne : value ≠ .undefined) :
    ((obj.prop (js "type")).isSet = true → (obj.prop (js "type")).isString = false →
      bindingParam key obj = .error (.error (js "type must be string"))) ∧
    ((obj.prop (js "type")).isString = true → unit ':' ∈ (obj.prop (js "type")).stringValue →
      bindingParam key obj = .error (.error (js "type cannot contain colon - "
        ++ (obj.prop (js "type")).stringValue))) ∧
    ((obj.prop (js "lang")).isSet = true → (obj.prop (js "lang")).isString = false →
      (∃ e, bindingParam key obj = .error e) ∧
      (typeValid (obj.prop (js "type")) →
        bindingParam key obj = .error (.error (js "lang must be string")))) ∧
    ((obj.prop (js "type")).isSet = false →
      ((∃ msg, bindingParam key obj = .error (.error msg)) ↔
        ((obj.prop (js "lang")).isSet = true ∧ (obj.prop (js "lang")).isString = false))) ∧
    ((obj.prop (js "lang")).isSet = false →
      ((∃ msg, bindingParam key obj = .error (.error msg)) ↔
        ((obj.prop (js "type")).isSet = true ∧ ((obj.prop (js "type")).isString = false ∨
          unit ':' ∈ (obj.prop (js "type")).stringValue)))) ∧
    ((obj.prop (js "type")).isString = true → unit ':' ∉ (obj.prop (js "type")).stringValue →
      (obj.prop (js "lang")).isSet = false →
      bindingParam key obj
        = bindParameter (key ++ js ":" ++ (obj.prop (js "type")).stringValue) value) ∧
    ((obj.prop (js "lang")).isString = true → (obj.prop (js "type")).isSet = false →
      bindingParam key obj
        = bindParameter (key ++ js "@" ++ (obj.prop (js "lang")).stringValue) value) ∧
    (∀ mb c p o bindings, o.bindings = some bindings → (key, obj) ∈ bindings →
      (((obj.prop (js "type")).isSet = true ∧ ((obj.prop (js "type")).isString = false ∨
          unit ':' ∈ (obj.prop (js "type")).stringValue)) ∨
        ((obj.prop (js "lang")).isSet = true ∧ (obj.prop (js "lang")).isString = false)) →
      ∃ e, query mb c p o = .error e) ∧
    (∀ mb c p o, legalOptions o → o.bindings = some [(key, obj)] →
      (((obj.prop (js "type")).isString = true ∧
          unit ':' ∉ (obj.prop (js "type")).stringValue ∧
          (obj.prop (js "lang")).isSet = false) ∨
        ((obj.prop (js "lang")).isString = true ∧ (obj.prop (js "type")).isSet = false)) →
      (∀ param,
        bindParameter (wireName key (obj.prop (js "type")) (obj.prop (js "lang"))) value
          = .ok param →
        ∃ op, query mb c p o = .ok op ∧
          queryParams op.path = param :: formatParams
            (optionValue (js "json") o.format) (optionValue (js "object") o.output)
            (optionValue (js "json") o.rowFormat) (optionValue (js "rows") o.columnTypes)) ∧
      (∀ e, query mb c p o = .error e → e = .uriError ∨ e = .typeError)) ∧
    (∀ mb c p, ∃ op,
      query mb c p { bindings := some [(js "a", .obj [(js "value", .str (js "x")),
        (js "type", .str (js "int"))])] } = .ok op ∧
      queryParams op.path
        = [js "bind%3Aa%3Aint=x", js "output=object", js "column-types=rows"]) := by
  have hp := @bindingParam_of_value key obj value hv hne
  have hwdef : wireName key (obj.prop (js "type")) (obj.prop (js "lang")) =
      if (obj.prop (js "lang")).isSet then key ++ js "@" ++ (obj.prop (js "lang")).stringValue
      else if (obj.prop (js "type")).isSet then
        key ++ js ":" ++ (obj.prop (js "type")).stringValue
      else key := rfl
  generalize obj.prop (js "type") = t at hp hwdef ⊢
  generalize obj.prop (js "lang") = l at hp hwdef ⊢
  have hts : t.isString = true → t.isSet = true := isSet_of_isString
  have hls : l.isString = true → l.isSet = true := isSet_of_isString
  have A : t.isSet = true → t.isString = false →
      bindingParam key obj = .error (.error (js "type must be string")) := by
    intro h1 h2
    rw [hp, if_pos ⟨h1, h2⟩]
  have B : t.isString = true → unit ':' ∈ t.stringValue →
      bindingParam key obj = .error (.error (js "type cannot contain colon - "
        ++ t.stringValue)) := by
    intro h1 h2
    rw [hp, if_neg (by simp [h1]), if_pos ⟨hts h1, h2⟩]
  have C : typeValid t → l.isSet = true → l.isString = false →
      bindingParam key obj = .error (.error (js "lang must be string")) := by
    intro h0 h1 h2
    have n1 : ¬ (t.isSet = true ∧ t.isString = false) := by
      rintro ⟨a, b⟩
      rcases h0 with h0 | h0
      · simp [h0] at a
      · simp [h0.1] at b
    have n2 : ¬ (t.isSet = true ∧ unit ':' ∈ t.stringValue) := by
      rintro ⟨a, b⟩
      rcases h0 with h0 | h0
      · simp [h0] at a
      · exact h0.2 b
    rw [hp, if_neg n1, if_neg n2, if_pos ⟨h1, h2⟩]
  have Ebad : (t.isSet = true ∧ (t.isString = false ∨ unit ':' ∈ t.stringValue)) ∨
      (l.isSet = true ∧ l.isString = false) →
      ∃ msg, bindingParam key obj = .error (.error msg) := by
    intro h
    by_cases hvalid : typeValid t
    · rcases h with ⟨a, b | b⟩ | ⟨a, b⟩
      · exact ⟨_, A a b⟩
      · rcases hvalid with h0 | h0
        · simp [h0] at a
        · exact absurd b h0.2
      · exact ⟨_, C hvalid a b⟩
    · have hset : t.isSet = true := by
        by_contra hc
        exact hvalid (Or.inl (by simpa using hc))
      by_cases hs : t.isString = true
      · have hcol : unit ':' ∈ t.stringValue := by
          by_contra hc
          exact hvalid (Or.inr ⟨hs, hc⟩)
        exact ⟨_, B hs hcol⟩
      · exact ⟨_, A hset (by simpa using hs)⟩
  have Ftype : t.isString = true → unit ':' ∉ t.stringValue → l.isSet = false →
      bindingParam key obj = bindParameter (key ++ js ":" ++ t.stringValue) value := by
    intro h1 h2 h3
    rw [hp, if_neg (by simp [h1]), if_neg (by simp [h2]), if_neg (by simp [h3]),
      if_neg (by simp [h3]), hwdef]
    simp [h3, hts h1]
  have Flang : l.isString = true → t.isSet = false →
      bindingParam key obj = bindParameter (key ++ js "@" ++ l.stringValue) value := by
    intro h1 h2
    rw [hp, if_neg (by simp [h2]), if_neg (by simp [h2]), if_neg (by simp [h1]),
      if_neg (by simp [h2]), hwdef]
    simp [hls h1]
  have Fnone : t.isSet = false → l.isSet = false →
      bindingParam key obj = bindParameter key value := by
    intro h1 h2
    rw [hp, if_neg (by simp [h1]), if_neg (by simp [h1]), if_neg (by simp [h2]),
      if_neg (by simp [h1]), hwdef]
    simp [h1, h2]
  have Fwire : (t.isString = true ∧ unit ':' ∉ t.stringValue ∧ l.isSet = false) ∨
      (l.isString = true ∧ t.isSet = false) →
      bindingParam key obj = bindParameter (wireName key t l) value := by
    intro h
    rcases h with ⟨a, b, d⟩ | ⟨a, b⟩
    · rw [Ftype a b d, hwdef]
      simp [d, hts a]
    · rw [Flang a b, hwdef]
      simp [hls a]
  refine ⟨A, B, ?_, ?_, ?_, Ftype, Flang, ?_, ?_, ?_⟩
  · intro h1 h2
    obtain ⟨msg, hmsg⟩ := Ebad (Or.inr ⟨h1, h2⟩)
    exact ⟨⟨_, hmsg⟩, fun h0 => C h0 h1 h2⟩
  · intro h1
    constructor
    · rintro ⟨msg, he⟩
      by_contra hc
      by_cases hl : l.isSet = true
      · have hs : l.isString = true := by
          by_contra hn
          exact hc ⟨hl, by simpa using hn⟩
        rw [Flang hs h1] at he
        exact bindParameter_not_message he
      · rw [Fnone h1 (by simpa using hl)] at he
        exact bindParameter_not_message he
    · intro h
      exact Ebad (Or.inr h)
  · intro h1
    constructor
    · rintro ⟨msg, he⟩
      by_contra hc
      by_cases ht : t.isSet = true
      · have hs : t.isString = true := by
          by_contra hn
          exact hc ⟨ht, Or.inl (by simpa using hn)⟩
        have hcol : unit ':' ∉ t.stringValue := fun hn => hc ⟨ht, Or.inr hn⟩
        rw [Ftype hs hcol h1] at he
        exact bindParameter_not_message he
      · rw [Fnone (by simpa using ht) h1] at he
        exact bindParameter_not_message he
    · intro h
      exact Ebad (Or.inl h)
  · intro mb c p o bindings hb hm h
    obtain ⟨msg, he⟩ := Ebad h
    exact query_error_of_binding_error hb hm he
  · intro mb c p o hleg hb h
    have hw := Fwire h
    refine ⟨?_, ?_⟩
    · intro param hparam
      exact @query_binding_emitted mb c p o [] [] key obj [] [] param hleg hb rfl
        (hw.trans hparam) rfl
    · intro e he
      rw [query_single_binding mb c p o key obj hleg hb, hw] at he
      cases hq : bindParameter (wireName key t l) value with
      | error e' =>
        simp only [hq, Except.error.injEq] at he
        rw [← he]
        exact bindParameter_error hq
      | ok q => simp [hq] at he
  · intro mb c p
    exact @query_binding_emitted mb c p
      { bindings := some [(js "a", .obj [(js "value", .str (js "x")),
        (js "type", .str (js "int"))])] } [] [] (js "a")
      (.obj [(js "value", .str (js "x")), (js "type", .str (js "int"))]) [] []
      (js "bind%3Aa%3Aint=x") ⟨Or.inl rfl, Or.inl rfl, Or.inl rfl, Or.inl rfl⟩ rfl rfl rfl rfl

/-- Witness for C6, amended: the binding `a: {value: 'x', type: 'xs:int'}`. -/
theorem type_lang_validation_witness :
    bindingParam (js "a") (.obj [(js "value", .str (js "x")), (js "type", .str (js "xs:int"))])
      = .error (.error (js "type cannot contain colon - xs:int")) :=
  (type_lang_validation (js "a")
    (.obj [(js "value", .str (js "x")), (js "type", .str (js "xs:int"))])
    (.str (js "x")) rfl (by simp)).2.1 rfl (by decide)

theorem bindingNameValue_of_bare {key : JSString} {obj : JSVal}
    (hv : obj.get (js "value") = .ok .undefined) : bindingNameValue key obj = .ok (key, obj) := by
  unfold bindingNameValue
  rw [hv]

/-- C7: for a bindings entry whose raw value has no `value` sub-field
(`raw.value` is `undefined`), the loop body takes the key as wire name and the
raw value as bound value, and evaluates
`encodeURIComponent('bind:' + key) + '=' + encodeURIComponent(raw)`. With legal
options, and the bindings before and after it encoding, `query` returns an
operation whose path has that parameter at the position of the entry, when the
expression has a result, and throws the error of the expression when it
throws. For the bindings `{dirs:'/test/'}` and otherwise default options the
path is `/v1/rows?bind%3Adirs=%2Ftest%2F&output=object&column-types=rows`. -/
theorem bare_binding (key : JSString) (raw : JSVal) (hv : raw.get (js "value") = .ok .undefined) :
    bindingNameValue key raw = .ok (key, raw) ∧
    bindingParam key raw = bindParameter key raw ∧
    (∀ mb c p o pre post prePs postPs param, legalOptions o →
      o.bindings = some (pre ++ (key, raw) :: post) →
      bindingParams pre = .ok prePs → bindingParams post = .ok postPs →
      bindParameter key raw = .ok param →
      ∃ op, query mb c p o = .ok op ∧
        queryParams op.path = prePs ++ param :: postPs ++ formatParams
          (optionValue (js "json") o.format) (optionValue (js "object") o.output)
          (optionValue (js "json") o.rowFormat) (optionValue (js "rows") o.columnTypes)) ∧
    (∀ mb c p o pre post prePs e, legalOptions o →
      o.bindings = some (pre ++ (key, raw) :: post) → bindingParams pre = .ok prePs →
      bindParameter key raw = .error e → query mb c p o = .error e) ∧
    (∀ mb c p, ∃ op,
      query mb c p { bindings := some [(js "dirs", .str (js "/test/"))] } = .ok op ∧
      bindingNameValue (js "dirs") (.str (js "/test/")) = .ok (js "dirs", .str (js "/test/")) ∧
      op.path = js "/v1/rows?bind%3Adirs=%2Ftest%2F&output=object&column-types=rows") := by
  have hnv := @bindingNameValue_of_bare key raw hv
  have hbp := bindingParam_of_nameValue hnv
  refine ⟨hnv, hbp, ?_, ?_, ?_⟩
  · intro mb c p o pre post prePs postPs param hleg hb hpre hpost hparam
    exact query_binding_emitted mb c p hleg hb hpre (hbp.trans hparam) hpost
  · intro mb c p o pre post prePs e hleg hb hpre he
    exact query_binding_error mb c p hleg hb hpre (hbp.trans he)
  · intro mb c p
    refine ⟨_, rfl, rfl, ?_⟩
    simp only [Operation.path, getProp_setProp_same]
    rfl

/-- Witness for C7: `query` with the bindings `{dirs: '/test/'}` and default
options returns an operation whose parameters are `bind%3Adirs=%2Ftest%2F`,
`output=object` and `column-types=rows`. -/
theorem bare_binding_witness :
    (JSVal.str (js "/test/")).get (js "value") = .ok .undefined ∧
    ∃ op, query (js "BOUNDARY") ⟨[]⟩ ⟨js "{}"⟩
        { bindings := some [(js "dirs", .str (js "/test/"))] } = .ok op ∧
      queryParams op.path
        = [js "bind%3Adirs=%2Ftest%2F", js "output=object", js "column-types=rows"] :=
  ⟨rfl, (bare_binding (js "dirs") (.str (js "/test/")) rfl).2.2.1 (js "BOUNDARY") ⟨[]⟩ ⟨js "{}"⟩
    { bindings := some [(js "dirs", .str (js "/test/"))] } [] [] [] []
    (js "bind%3Adirs=%2Ftest%2F") ⟨Or.inl rfl, Or.inl rfl, Or.inl rfl, Or.inl rfl⟩
    rfl rfl rfl rfl⟩

theorem mem_ampAll {x : Nat} {ps : List JSString} (h : x ∈ (ampAll ps)) :
    x = unit '&' ∨ ∃ q ∈ ps, x ∈ q := by
  simp only [ampAll, List.mem_flatten, List.mem_map] at h
  obtain ⟨l, ⟨q, hq, rfl⟩, hx⟩ := h
  simp only [List.mem_cons] at hx
  rcases hx with hx | hx
  · exact Or.inl hx
  · exact Or.inr ⟨q, hq, hx⟩

theorem mem_joinParams {x : Nat} {ps : List JSString} (h : x ∈ (joinParams ps)) :
    x = unit '&' ∨ ∃ q ∈ ps, x ∈ q := by
  cases ps with
  | nil => simp [joinParams, List.intercalate] at h
  | cons p qs =>
    rw [joinParams_cons_data, List.mem_append] at h
    rcases h with h | h
    · exact Or.inr ⟨p, List.mem_cons_self _ _, h⟩
    · rcases mem_ampAll h with h | ⟨q, hq, hx⟩
      · exact Or.inl h
      · exact Or.inr ⟨q, List.mem_cons_of_mem _ hq, hx⟩

theorem bindingParam_has_eq {key : JSString} {obj : JSVal} {p : JSString}
    (h : bindingParam key obj = .ok p) : unit '=' ∈ p := by
  obtain ⟨name, value, a, b, _, _, _, rfl⟩ := bindingParam_ok h
  simp [js, utf16, unit]

theorem formatParams_has_eq (format output rowFormat columnTypes : JSString) :
    ∀ q ∈ formatParams format output rowFormat columnTypes, unit '=' ∈ q := by
  intro q hq
  unfold formatParams at hq
  split_ifs at hq <;>
    simp only [List.mem_cons, List.mem_singleton, List.not_mem_nil, or_false] at hq
  · subst hq
    exact List.mem_append_left _ (by decide)
  · rcases hq with rfl | rfl | rfl <;> exact List.mem_append_left _ (by decide)
  · rcases hq with rfl | rfl <;> exact List.mem_append_left _ (by decide)

/-- C8: for legal options and bindings that encode, with any number of keys
and for every format, the path `query` builds is `/v1/rows`, then `?`, then
the parameters joined by `&`, where the parameters are the bind parameters
followed by the format parameters; there is at least one parameter, each has
the form `name=value` and contains neither `?` nor `&`, so the path has
exactly one `?` and splitting the query string at `&` gives the parameters
back. -/
theorem single_question_mark (mb : JSString) (c : Client) (p : Plan) (o : Options)
    (op : Operation) (h : query mb c p o = .ok op) :
    ∃ bps params, bindingParams (o.bindings.getD []) = .ok bps ∧
      params = bps ++ formatParams (optionValue (js "json") o.format)
        (optionValue (js "object") o.output) (optionValue (js "json") o.rowFormat)
        (optionValue (js "rows") o.columnTypes) ∧
      params ≠ [] ∧
      op.path = js "/v1/rows" ++ js "?" ++ joinParams params ∧
      (∀ q ∈ params, unit '=' ∈ q ∧ unit '?' ∉ q ∧ unit '&' ∉ q) ∧
      op.path.count (unit '?') = 1 ∧
      queryParams op.path = params := by
  obtain ⟨hleg, bps, hb, _, hpath, hq⟩ := query_ok_params h
  have hchars : ∀ q ∈ bps ++ formatParams (optionValue (js "json") o.format)
      (optionValue (js "object") o.output) (optionValue (js "json") o.rowFormat)
      (optionValue (js "rows") o.columnTypes), ∀ x ∈ q, paramChar x = true := by
    intro q hqm
    rcases List.mem_append.1 hqm with hqm | hqm
    · obtain ⟨kv, _, hk⟩ := bindingParams_mem hb hqm
      exact bindingParam_chars hk
    · exact formatParams_chars o hleg q hqm
  refine ⟨bps, _, hb, rfl, by simp [formatParams_ne_nil], hpath, ?_, ?_, hq⟩
  · intro q hqm
    refine ⟨?_, fun hx => paramChar_ne_question (hchars q hqm _ hx) rfl,
      fun hx => paramChar_ne_amp (hchars q hqm _ hx) rfl⟩
    rcases List.mem_append.1 hqm with hqm | hqm
    · obtain ⟨kv, _, hk⟩ := bindingParams_mem hb hqm
      exact bindingParam_has_eq hk
    · exact formatParams_has_eq _ _ _ _ q hqm
  · rw [hpath, List.count_append]
    have h0 : List.count (unit '?') (joinParams (bps ++ formatParams (optionValue (js "json") o.format)
        (optionValue (js "object") o.output) (optionValue (js "json") o.rowFormat)
        (optionValue (js "rows") o.columnTypes))) = 0 := by
      rw [List.count_eq_zero]
      intro hx
      rcases mem_joinParams hx with hx | ⟨q, hqm, hx⟩
      · exact absurd hx (by decide)
      · exact paramChar_ne_question (hchars q hqm _ hx) rfl
    rw [h0]
    rfl

/-- Witness for C8: bindings with two keys and the format `multipart`. -/
theorem single_question_mark_witness :
    ∃ op, query (js "BOUNDARY") ⟨[]⟩ ⟨js "{}"⟩
        { format := .str (js "multipart")
          bindings := some [(js "a", .str (js "x?y")), (js "b", .num (js "1"))] } = .ok op ∧
      op.path
        = js "/v1/rows?bind%3Aa=x%3Fy&bind%3Ab=1&output=object&row-format=json&column-types=rows" ∧
      op.path.count (unit '?') = 1 :=
  ⟨_, rfl, rfl, (single_question_mark (js "BOUNDARY") ⟨[]⟩ ⟨js "{}"⟩
    { format := .str (js "multipart")
      bindings := some [(js "a", .str (js "x?y")), (js "b", .num (js "1"))] } _ rfl).choose_spec.choose_spec.2.2.2.2.2.1⟩

theorem queryOperation_header_accept (mb : JSString) (c : Client) (p : Plan) (o : Options)
    (bps : List JSString) :
    (queryOperation mb c p o bps).header (js "Accept")
      = .str (acceptFor mb (optionValue (js "json") o.format)) := by
  rw [Operation.header, queryOperation_headers]
  rfl

theorem queryOperation_header_contentType (mb : JSString) (c : Client) (p : Plan) (o : Options)
    (bps : List JSString) :
    (queryOperation mb c p o bps).header (js "Content-Type") = .str (js "application/json") := by
  rw [Operation.header, queryOperation_headers]
  rfl

/-- C9: an operation built by `query` has the method `POST`, the header
`Content-Type: application/json` and the `Accept` header given by the format
alone: `multipart/mixed; boundary=` followed by `mlutil.multipartBoundary` for
`multipart`, `text/csv` for `csv`, and `application/` followed by the format
otherwise (`application/json` when the format is absent). Two calls with the
same format get the same `Accept` header, whatever their other options,
bindings, plan and client are. -/
theorem accept_header (mb : JSString) (c : Client) (p : Plan) (o : Options) (op : Operation)
    (h : query mb c p o = .ok op) :
    op.method = .str (js "POST") ∧
    op.header (js "Content-Type") = .str (js "application/json") ∧
    op.header (js "Accept") = .str (acceptFor mb (optionValue (js "json") o.format)) ∧
    (o.format = .str (js "multipart") →
      op.header (js "Accept") = .str (js "multipart/mixed; boundary=" ++ mb)) ∧
    (o.format = .str (js "csv") → op.header (js "Accept") = .str (js "text/csv")) ∧
    (o.format = .str (js "json") → op.header (js "Accept") = .str (js "application/json")) ∧
    (o.format = .str (js "xml") → op.header (js "Accept") = .str (js "application/xml")) ∧
    (o.format = .str (js "json-seq") → op.header (js "Accept") = .str (js "application/json-seq")) ∧
    (o.format.isSet = false → op.header (js "Accept") = .str (js "application/json")) ∧
    (∀ c' p' o' op', o'.format = o.format → query mb c' p' o' = .ok op' →
      op'.header (js "Accept") = op.header (js "Accept")) := by
  obtain ⟨_, bps, _, rfl⟩ := (query_ok_iff mb c p o op).1 h
  have ha := queryOperation_header_accept mb c p o bps
  refine ⟨queryOperation_method mb c p o bps, queryOperation_header_contentType mb c p o bps,
    ha, ?_, ?_, ?_, ?_, ?_, ?_, ?_⟩
  · intro hf
    rw [ha, hf]
    rfl
  · intro hf
    rw [ha, hf]
    rfl
  · intro hf
    rw [ha, hf]
    rfl
  · intro hf
    rw [ha, hf]
    rfl
  · intro hf
    rw [ha, hf]
    rfl
  · intro hf
    rw [ha, optionValue_unset _ hf]
    rfl
  · intro c' p' o' op' hf hq
    obtain ⟨_, bps', _, rfl⟩ := (query_ok_iff mb c' p' o' op').1 hq
    rw [ha, queryOperation_header_accept, hf]

/-- Witness for C9: the format `multipart`. -/
theorem accept_header_witness :
    ∃ op, query (js "BOUNDARY") ⟨[]⟩ ⟨js "{}"⟩ { format := .str (js "multipart") } = .ok op ∧
      op.method = .str (js "POST") ∧
      op.header (js "Accept") = .str (js "multipart/mixed; boundary=BOUNDARY") :=
  ⟨_, rfl, (accept_header (js "BOUNDARY") ⟨[]⟩ ⟨js "{}"⟩ { format := .str (js "multipart") } _ rfl).1,
    (accept_header (js "BOUNDARY") ⟨[]⟩ ⟨js "{}"⟩ { format := .str (js "multipart") } _ rfl).2.2.2.1 rfl⟩

/-- C10, as stated, fails: with `{format: 'multipart'}` the format parameters
are `output=object&row-format=json&column-types=rows`, with `row-format`
before `column-types`. -/
theorem multipart_order_counterexample :
    ∃ op, query (js "BOUNDARY") ⟨[]⟩ ⟨js "{}"⟩ { format := .str (js "multipart") } = .ok op ∧
      op.path = js "/v1/rows?output=object&row-format=json&column-types=rows" ∧
      queryParams op.path = [js "output=object", js "row-format=json", js "column-types=rows"] ∧
      queryParams op.path ≠ [js "output=object", js "column-types=rows", js "row-format=json"] ∧
      op.path ≠ js "/v1/rows?output=object&column-types=rows&row-format=json" := by
  refine ⟨queryOperation (js "BOUNDARY") ⟨[]⟩ ⟨js "{}"⟩ { format := .str (js "multipart") } [],
    rfl, rfl, rfl, ?_, ?_⟩
  · intro hc
    have hr : queryParams (queryOperation (js "BOUNDARY") ⟨[]⟩ ⟨js "{}"⟩
        { format := .str (js "multipart") } []).path
        = [js "output=object", js "row-format=json", js "column-types=rows"] := rfl
    rw [hr] at hc
    exact absurd hc (by decide)
  · intro hc
    have hr : (queryOperation (js "BOUNDARY") ⟨[]⟩ ⟨js "{}"⟩ { format := .str (js "multipart") } []).path
        = js "/v1/rows?output=object&row-format=json&column-types=rows" := rfl
    rw [hr] at hc
    exact absurd hc (by decide)

/-- C10, amended: the parameters of the path `query` builds are the bind
parameters, in the order of the keys of `bindings`, followed by the format
parameters, which are `output`, `row-format`, `column-types` in this order
for `multipart` with a `rowFormat` other than `xml`, `row-format=xml` alone for
`multipart` with `rowFormat` `xml`, and `output`, `column-types` for every other
format. -/
theorem params_order (mb : JSString) (c : Client) (p : Plan) (o : Options) (op : Operation)
    (h : query mb c p o = .ok op) :
    ∃ bps fps, List.Forall₂ (fun kv q => bindingParam kv.1 kv.2 = .ok q)
        (o.bindings.getD []) bps ∧
      (∀ b ∈ bps, js "bind%3A" <+: b) ∧
      queryParams op.path = bps ++ fps ∧
      op.path = js "/v1/rows?" ++ joinParams (bps ++ fps) ∧
      (optionValue (js "json") o.format = js "multipart" → optionValue (js "json") o.rowFormat = js "json" →
        fps = [js "output=" ++ optionValue (js "object") o.output, js "row-format=json",
          js "column-types=" ++ optionValue (js "rows") o.columnTypes]) ∧
      (optionValue (js "json") o.format = js "multipart" → optionValue (js "json") o.rowFormat = js "xml" →
        fps = [js "row-format=xml"]) ∧
      (optionValue (js "json") o.format ≠ js "multipart" →
        fps = [js "output=" ++ optionValue (js "object") o.output,
          js "column-types=" ++ optionValue (js "rows") o.columnTypes]) := by
  obtain ⟨_, bps, hb, hbind, hpath, hq⟩ := query_ok_params h
  refine ⟨bps, _, (bindingParams_ok_iff _ _).1 hb, hbind, hq, hpath, ?_, ?_, ?_⟩
  · intro hf hr
    rw [formatParams, if_pos hf, hr, if_neg (by decide)]
    rfl
  · intro hf hr
    rw [formatParams, if_pos hf, hr, if_pos rfl]
    rfl
  · intro hf
    rw [formatParams, if_neg hf]

/-- Witness for C10, amended: `{format: 'multipart'}` with the bindings
`{a: 1}`. -/
theorem params_order_witness :
    ∃ op, query (js "BOUNDARY") ⟨[]⟩ ⟨js "{}"⟩
        { format := .str (js "multipart"), bindings := some [(js "a", .num (js "1"))] } = .ok op ∧
      queryParams op.path
        = [js "bind%3Aa=1", js "output=object", js "row-format=json", js "column-types=rows"] ∧
      ∃ bps fps, List.Forall₂ (fun kv q => bindingParam kv.1 kv.2 = .ok q)
          [(js "a", .num (js "1"))] bps ∧
        (∀ b ∈ bps, js "bind%3A" <+: b) ∧
        queryParams op.path = bps ++ fps :=
  ⟨_, rfl, rfl, by
    obtain ⟨bps, fps, h1, h2, h3, _⟩ := params_order (js "BOUNDARY") ⟨[]⟩ ⟨js "{}"⟩
      { format := .str (js "multipart"), bindings := some [(js "a", .num (js "1"))] } _ rfl
    exact ⟨bps, fps, h1, h2, h3⟩⟩

/-- C11: the code at the failing input. For `{columnTypes: 'bad'}` the message
of the error is `invalid column types "undefined"`: it shows `options.rowFormat`
(here absent), not the rejected `columnTypes` value; with
`{rowFormat: 'xml', columnTypes: 'bad'}` it shows `xml`. The three other checks
show the value they reject. -/
theorem column_types_message (mb : JSString) (c : Client) (p : Plan) :
    query mb c p { columnTypes := .str (js "bad") }
      = .error (.error (js "invalid column types \"undefined\"")) ∧
    query mb c p { rowFormat := .str (js "xml"), columnTypes := .str (js "bad") }
      = .error (.error (js "invalid column types \"xml\"")) ∧
    query mb c p { format := .str (js "bad") } = .error (.error (js "invalid rows format \"bad\"")) ∧
    query mb c p { output := .str (js "bad") } = .error (.error (js "invalid rows output \"bad\"")) ∧
    query mb c p { rowFormat := .str (js "bad") } = .error (.error (js "invalid row format \"bad\"")) :=
  ⟨rfl, rfl, rfl, rfl, rfl⟩

theorem checkOption_unset (valid : List JSString) (dflt msg : JSString) {v : JSVal} (shown : JSVal)
    (h : v.isSet = false) : checkOption valid dflt msg v shown = .ok dflt := by
  simp only [checkOption, h, Bool.false_eq_true, if_false]

/-- C12: when `format`, `output`, `rowFormat` and `columnTypes` are all `null`
or `undefined` and there are no bindings (in particular for the empty options
object), `query` returns what it returns for `json`, `object`, `json`, `rows`:
the operation with the path `/v1/rows?output=object&column-types=rows`, the
`Accept` header `application/json` and the response shape `single`. Omitting
`format`, `output` or `columnTypes` gives the result of passing its default;
omitting `rowFormat` gives the same operation as passing `json`, and the same
result whenever `columnTypes` is legal. -/
theorem defaults_request (mb : JSString) (c : Client) (p : Plan) (o : Options) :
    (o.format.isSet = false → o.output.isSet = false → o.rowFormat.isSet = false →
      o.columnTypes.isSet = false → o.bindings = none →
      query mb c p o = query mb c p
        { format := .str (js "json"), output := .str (js "object"), rowFormat := .str (js "json")
          columnTypes := .str (js "rows") } ∧
      ∃ op, query mb c p o = .ok op ∧
        op.path = js "/v1/rows?output=object&column-types=rows" ∧
        op.header (js "Accept") = .str (js "application/json") ∧
        op.responseType = js "single") ∧
    (∃ op, query mb c p {} = .ok op ∧
        op.path = js "/v1/rows?output=object&column-types=rows" ∧
        op.header (js "Accept") = .str (js "application/json") ∧
        op.responseType = js "single") ∧
    (o.format.isSet = false →
      query mb c p o = query mb c p { o with format := .str (js "json") }) ∧
    (o.output.isSet = false →
      query mb c p o = query mb c p { o with output := .str (js "object") }) ∧
    (o.columnTypes.isSet = false →
      query mb c p o = query mb c p { o with columnTypes := .str (js "rows") }) ∧
    (o.rowFormat.isSet = false →
      (∀ op, query mb c p o = .ok op ↔
        query mb c p { o with rowFormat := .str (js "json") } = .ok op) ∧
      (legalOption [js "rows", js "header"] o.columnTypes →
        query mb c p o = query mb c p { o with rowFormat := .str (js "json") })) := by
  have hempty : ∃ op, query mb c p {} = .ok op ∧
      op.path = js "/v1/rows?output=object&column-types=rows" ∧
      op.header (js "Accept") = .str (js "application/json") ∧
      op.responseType = js "single" := by
    refine ⟨queryOperation mb c p {} [], rfl, ?_, ?_, rfl⟩
    · rw [queryOperation_path]
      rfl
    · rw [queryOperation_header_accept]
      rfl
  refine ⟨?_, hempty, ?_, ?_, ?_, ?_⟩
  · intro hf ho hr hc hb
    have h1 : query mb c p o = query mb c p {} := by
      unfold query
      simp only [checkOption_unset _ _ _ _ hf, checkOption_unset _ _ _ _ ho,
        checkOption_unset _ _ _ _ hr, checkOption_unset _ _ _ _ hc, hb]
      rfl
    rw [h1]
    exact ⟨rfl, hempty⟩
  · intro hf
    unfold query
    simp only [checkOption_unset _ _ _ _ hf]
    rfl
  · intro ho
    unfold query
    simp only [checkOption_unset _ _ _ _ ho]
    rfl
  · intro hc
    unfold query
    simp only [checkOption_unset _ _ _ _ hc]
    rfl
  · intro hr
    constructor
    · apply query_default_congr
      · rfl
      · unfold legalOptions
        have hl : legalOption [js "json", js "xml"] o.rowFormat ↔
            legalOption [js "json", js "xml"] (.str (js "json")) :=
          ⟨fun _ => Or.inr (List.mem_map.2 ⟨js "json", by simp, rfl⟩), fun _ => Or.inl hr⟩
        rw [hl]
      · rfl
      · rfl
      · rw [optionValue_unset _ hr, optionValue_str]
      · rfl
    · intro hc
      unfold query
      simp only [checkOption_unset _ _ _ _ hr, checkOption_of_legal _ _ _ _ _ hc]
      rfl

theorem explain_of_legal (c : Client) (p : Plan) (o : Options)
    (h : legalOption [js "json", js "xml"] o.format) :
    explain c p o = .ok (explainOperation c p o) := by
  unfold explain explainOperation optionValue
  rcases h with h | h
  · simp only [h, Bool.false_eq_true, if_false, copyProperties]
    rfl
  · have h1 := legalOption_isSet h
    have h2 := (indexOf_nonneg_iff [js "json", js "xml"] o.format).2 h
    simp only [h1, h2, if_true, copyProperties]

theorem explain_of_illegal (c : Client) (p : Plan) (o : Options)
    (h : ¬ legalOption [js "json", js "xml"] o.format) :
    explain c p o = .error (optionError (js "invalid explain format \"") o.format) := by
  unfold explain optionError
  have h1 : o.format.isSet = true := by
    by_contra hc
    exact h (Or.inl (by simpa using hc))
  have h2 : ¬ indexOf [js "json", js "xml"] o.format ≥ 0 :=
    fun hc => h (Or.inr ((indexOf_nonneg_iff _ _).1 hc))
  simp only [h1, h2, if_true, if_false]
  cases o.format.toJSString <;> rfl

theorem optionError_of_text {msg : JSString} {shown : JSVal} {text : JSString}
    (h : shown.toJSString = .ok text) :
    optionError msg shown = .error (msg ++ text ++ js "\"") := by
  simp only [optionError, h]

theorem explainOperation_path (c : Client) (p : Plan) (o : Options) :
    (explainOperation c p o).path = js "/v1/rows?output=explain" := by
  simp only [Operation.path, explainOperation, getProp_setProp_same, JSVal.stringValue]

theorem explainOperation_method (c : Client) (p : Plan) (o : Options) :
    (explainOperation c p o).method = .str (js "POST") := by
  simp only [Operation.method, explainOperation]
  rw [getProp_setProp_other _ _ _ _ (by decide), getProp_setProp_other _ _ _ _ (by decide),
    getProp_setProp_same]

theorem explainOperation_headers (c : Client) (p : Plan) (o : Options) :
    getProp (explainOperation c p o).options (js "headers") =
      .obj [(js "Content-Type", .str (js "application/json")),
        (js "Accept", .str (js "application/" ++ optionValue (js "json") o.format))] := by
  simp only [explainOperation]
  rw [getProp_setProp_other _ _ _ _ (by decide), getProp_setProp_same]

/-- C13: for an options object whose `format` is `null`, `undefined`, `json`
or `xml`, `explain` builds the operation with method `POST`, the path
`/v1/rows?output=explain` whatever the other options and the bindings are,
`Content-Type: application/json`, the `Accept` header `application/json` when
the format is absent and `application/` followed by the format otherwise,
request and response shape `single`, valid status codes `[200, 404]` and the
request body `builtPlan.toString()`. -/
theorem explain_request (c : Client) (p : Plan) (o : Options)
    (h : o.format.isSet = false ∨ o.format = .str (js "json") ∨ o.format = .str (js "xml")) :
    ∃ op, explain c p o = .ok op ∧
      op.method = .str (js "POST") ∧
      op.path = js "/v1/rows?output=explain" ∧
      op.header (js "Content-Type") = .str (js "application/json") ∧
      (o.format.isSet = false → op.header (js "Accept") = .str (js "application/json")) ∧
      (o.format.isSet = true →
        op.header (js "Accept") = .str (js "application/" ++ o.format.stringValue)) ∧
      op.requestType = js "single" ∧ op.responseType = js "single" ∧
      op.validStatusCodes = [200, 404] ∧
      op.requestBody = p.toString := by
  have hleg : legalOption [js "json", js "xml"] o.format := by
    rcases h with h | h | h
    · exact Or.inl h
    · exact Or.inr (by rw [h]; simp)
    · exact Or.inr (by rw [h]; simp)
  refine ⟨_, explain_of_legal c p o hleg, explainOperation_method c p o,
    explainOperation_path c p o, ?_, ?_, ?_, rfl, rfl, rfl, rfl⟩
  · rw [Operation.header, explainOperation_headers]
    rfl
  · intro hf
    rw [Operation.header, explainOperation_headers, optionValue_unset _ hf]
    rfl
  · intro hf
    rw [Operation.header, explainOperation_headers]
    simp only [optionValue, hf, if_true]
    rfl

/-- Witness for C13: `{format: 'xml'}` with bindings and other options. -/
theorem explain_request_witness :
    ∃ op, explain ⟨[(js "host", .str (js "localhost"))]⟩ ⟨js "{}"⟩
        { format := .str (js "xml"), output := .str (js "array")
          bindings := some [(js "a", .num (js "1"))] } = .ok op ∧
      op.path = js "/v1/rows?output=explain" ∧
      op.header (js "Accept") = .str (js "application/xml") := by
  obtain ⟨op, h1, _, h3, _, _, h6, _⟩ := explain_request ⟨[(js "host", .str (js "localhost"))]⟩ ⟨js "{}"⟩
    { format := .str (js "xml"), output := .str (js "array")
      bindings := some [(js "a", .num (js "1"))] } (Or.inr (Or.inr rfl))
  exact ⟨op, h1, h3, h6 rfl⟩

/-- C14: `explain` throws exactly when `format` is neither `null` nor
`undefined` and is not `json` or `xml`, and the error is then the one of the
check: `invalid explain format` followed by the value in double quotes,
whenever the value converts to a string. The formats `json-seq`, `csv` and
`multipart` are rejected by `explain` and accepted by `query`. -/
theorem explain_throws_iff (mb : JSString) (c : Client) (p : Plan) (o : Options) :
    ((∃ e, explain c p o = .error e) ↔
      (o.format.isSet = true ∧ o.format ∉ [js "json", js "xml"].map JSVal.str)) ∧
    ((∃ e, explain c p o = .error e) ↔ ∀ op, explain c p o ≠ .ok op) ∧
    ((o.format.isSet = true ∧ o.format ∉ [js "json", js "xml"].map JSVal.str) →
      explain c p o = .error (optionError (js "invalid explain format \"") o.format) ∧
      ∀ text, o.format.toJSString = .ok text →
        explain c p o
          = .error (.error (js "invalid explain format \"" ++ text ++ js "\""))) ∧
    (∀ f ∈ [js "json-seq", js "csv", js "multipart"],
      explain c p { o with format := .str f }
        = .error (.error (js "invalid explain format \"" ++ f ++ js "\"")) ∧
      ∃ op, query mb c p { format := .str f } = .ok op) := by
  refine ⟨?_, ?_, ?_, ?_⟩
  · rw [← not_legalOption_iff]
    constructor
    · rintro ⟨e, he⟩ hleg
      rw [explain_of_legal c p o hleg] at he
      exact absurd he (by simp)
    · intro hleg
      exact ⟨_, explain_of_illegal c p o hleg⟩
  · cases explain c p o <;> simp
  · intro h
    have he := explain_of_illegal c p o ((not_legalOption_iff _ _).2 h)
    refine ⟨he, ?_⟩
    intro text htext
    rw [he, optionError_of_text htext]
  · intro f hf
    simp only [List.mem_cons, List.mem_singleton, List.not_mem_nil, or_false] at hf
    rcases hf with rfl | rfl | rfl
    · exact ⟨rfl, _, rfl⟩
    · exact ⟨rfl, _, rfl⟩
    · exact ⟨rfl, _, rfl⟩

theorem optionValue_eq_iff {legal : List JSString} {v : JSVal} {dflt s : JSString}
    (h : legalOption legal v) (hne : s ≠ dflt) : optionValue dflt v = s ↔ v = .str s := by
  rcases h with h | h
  · rw [optionValue_unset _ h]
    constructor
    · intro he
      exact absurd he.symm hne
    · intro he
      rw [he] at h
      exact absurd h (by simp [JSVal.isSet])
  · simp only [List.mem_map] at h
    obtain ⟨t, _, rfl⟩ := h
    rw [optionValue_str]
    constructor
    · intro he
      rw [he]
    · intro he
      exact JSVal.str.inj he

/-- C15: an operation built by `query` has the request shape `single`, the
response shape `multipart` exactly when the format is `multipart` and `single`
otherwise, the valid status codes `[200, 404]` and the request body
`builtPlan.toString()`. The body is the same for all options, and the plan
enters the operation through its `toString()` alone: with another plan the
operation differs in the request body only. -/
theorem operation_shape (mb : JSString) (c : Client) (p : Plan) (o : Options) (op : Operation)
    (h : query mb c p o = .ok op) :
    op.requestType = js "single" ∧
    (op.responseType = js "multipart" ↔ o.format = .str (js "multipart")) ∧
    (o.format ≠ .str (js "multipart") → op.responseType = js "single") ∧
    op.validStatusCodes = [200, 404] ∧
    op.requestBody = p.toString ∧
    (∀ o' op', query mb c p o' = .ok op' → op'.requestBody = op.requestBody) ∧
    (∀ p', query mb c p' o = .ok { op with requestBody := p'.toString }) := by
  obtain ⟨hleg, bps, hb, rfl⟩ := (query_ok_iff mb c p o op).1 h
  have hm : optionValue (js "json") o.format = js "multipart" ↔ o.format = .str (js "multipart") :=
    optionValue_eq_iff hleg.1 (by decide)
  refine ⟨rfl, ?_, ?_, rfl, rfl, ?_, ?_⟩
  · rw [← hm]
    simp only [queryOperation]
    by_cases hf : optionValue (js "json") o.format = js "multipart"
    · simp [hf]
    · simp only [hf, if_false, iff_false]
      decide
  · intro hne
    have hf : ¬ optionValue (js "json") o.format = js "multipart" := fun hc => hne (hm.1 hc)
    simp only [queryOperation, hf, if_false]
  · intro o' op' hq
    obtain ⟨_, bps', _, rfl⟩ := (query_ok_iff mb c p o' op').1 hq
    rfl
  · intro p'
    rw [query_of_legal mb c p' o hleg, hb]
    rfl

/-- Witness for C15: the format `multipart` and the plan `{}`. -/
theorem operation_shape_witness :
    ∃ op, query (js "BOUNDARY") ⟨[]⟩ ⟨js "{}"⟩ { format := .str (js "multipart") } = .ok op ∧
      op.requestType = js "single" ∧ op.responseType = js "multipart" ∧
      op.validStatusCodes = [200, 404] ∧ op.requestBody = js "{}" :=
  ⟨_, rfl, (operation_shape (js "BOUNDARY") ⟨[]⟩ ⟨js "{}"⟩ { format := .str (js "multipart") } _ rfl).1,
    rfl, rfl, rfl⟩

theorem read_assignRef_other (store : Store) (ref a : Nat) (name : JSString) (v : JSVal)
    (h : a ≠ ref) : (assignRef store ref name v).read a = store.read a := by
  simp only [assignRef, Store.read, List.getD_eq_getElem?_getD]
  rw [List.getElem?_set_ne (Ne.symm h)]

theorem read_assignRef_same (store : Store) (ref : Nat) (name : JSString) (v : JSVal)
    (h : ref < store.length) :
    (assignRef store ref name v).read ref = setProp (store.read ref) name v := by
  simp only [assignRef, Store.read, List.getD_eq_getElem?_getD]
  rw [List.getElem?_set_self h]
  rfl

theorem length_assignRef (store : Store) (ref : Nat) (name : JSString) (v : JSVal) :
    (assignRef store ref name v).length = store.length := by
  simp [assignRef]

theorem read_copyPropertiesRef_old (store : Store) (source a : Nat) (h : a < store.length) :
    (copyPropertiesRef store source).2.read a = store.read a := by
  simp only [copyPropertiesRef, Store.read, List.getD_eq_getElem?_getD]
  rw [List.getElem?_append_left h]

theorem read_copyPropertiesRef_new (store : Store) (source : Nat) :
    (copyPropertiesRef store source).2.read (copyPropertiesRef store source).1
      = copyProperties (store.read source) := by
  simp [copyPropertiesRef, Store.read, List.getD_eq_getElem?_getD]

theorem requestOptionsRef_old (store : Store) (cp : Nat) (headers : JSVal) (path : JSString)
    (a : Nat) (h : a < store.length) :
    (requestOptionsRef store cp headers path).2.read a = store.read a := by
  have hne : a ≠ (copyPropertiesRef store cp).1 := Nat.ne_of_lt h
  simp only [requestOptionsRef]
  rw [read_assignRef_other _ _ _ _ _ hne, read_assignRef_other _ _ _ _ _ hne,
    read_assignRef_other _ _ _ _ _ hne, read_copyPropertiesRef_old _ _ _ h]

theorem requestOptionsRef_new (store : Store) (cp : Nat) (headers : JSVal) (path : JSString) :
    (requestOptionsRef store cp headers path).2.read (requestOptionsRef store cp headers path).1
      = setProp (setProp (setProp (copyProperties (store.read cp)) (js "method") (.str (js "POST")))
          (js "headers") headers) (js "path") (.str path) := by
  have hlen : (copyPropertiesRef store cp).1 < (copyPropertiesRef store cp).2.length := by
    simp [copyPropertiesRef]
  simp only [requestOptionsRef]
  rw [read_assignRef_same _ _ _ _ (by simpa [length_assignRef] using hlen),
    read_assignRef_same _ _ _ _ (by simpa [length_assignRef] using hlen),
    read_assignRef_same _ _ _ _ hlen, read_copyPropertiesRef_new]

theorem getProp_requestOptions_other (cp : Props) (headers path : JSVal) (name : JSString)
    (h1 : name ≠ js "method") (h2 : name ≠ js "headers") (h3 : name ≠ js "path") :
    getProp (setProp (setProp (setProp cp (js "method") (.str (js "POST"))) (js "headers") headers)
      (js "path") path) name = getProp cp name := by
  rw [getProp_setProp_other _ _ _ _ h3, getProp_setProp_other _ _ _ _ h2,
    getProp_setProp_other _ _ _ _ h1]

/-- C16: `query` and `explain` set `method`, `headers` and `path` on the copy
made by `mlutil.copyProperties`. On the store, the statements that build
`requestOptions` leave every object that existed before, the connection
parameters among them, as it was, also when only the copy and the assignment
of `method` are run (as in `explain` before it throws); the object they build
is the request options of the operation. The operation refers to the client it
was given, and every property of the connection parameters other than
`method`, `headers` and `path` reads the same in the request options. -/
theorem connection_params_frame (mb : JSString) (c : Client) (p : Plan) (o : Options)
    (store : Store) (cp : Nat) (hcp : cp < store.length)
    (hread : store.read cp = c.connectionParams) :
    (∀ headers path a, a < store.length →
      (requestOptionsRef store cp headers path).2.read a = store.read a) ∧
    (∀ headers path,
      (requestOptionsRef store cp headers path).2.read cp = c.connectionParams) ∧
    (∀ a, a < store.length →
      (assignRef (copyPropertiesRef store cp).2 (copyPropertiesRef store cp).1 (js "method")
        (.str (js "POST"))).read a = store.read a) ∧
    (∀ op, query mb c p o = .ok op →
      op.client = c ∧
      (∃ headers path,
        op.options = (requestOptionsRef store cp headers path).2.read
          (requestOptionsRef store cp headers path).1) ∧
      (∀ name, name ≠ js "method" → name ≠ js "headers" → name ≠ js "path" →
        getProp op.options name = getProp c.connectionParams name)) ∧
    (∀ op, explain c p o = .ok op →
      op.client = c ∧
      (∃ headers path,
        op.options = (requestOptionsRef store cp headers path).2.read
          (requestOptionsRef store cp headers path).1) ∧
      (∀ name, name ≠ js "method" → name ≠ js "headers" → name ≠ js "path" →
        getProp op.options name = getProp c.connectionParams name)) := by
  have key : ∀ (headers : JSVal) (path : JSString),
      setProp (setProp (setProp c.connectionParams (js "method") (.str (js "POST"))) (js "headers") headers)
        (js "path") (.str path)
      = (requestOptionsRef store cp headers path).2.read
          (requestOptionsRef store cp headers path).1 := by
    intro headers path
    rw [requestOptionsRef_new, hread]
    rfl
  refine ⟨fun headers path a ha => requestOptionsRef_old store cp headers path a ha, ?_, ?_,
    ?_, ?_⟩
  · intro headers path
    rw [requestOptionsRef_old store cp headers path cp hcp, hread]
  · intro a ha
    have hne : a ≠ (copyPropertiesRef store cp).1 := Nat.ne_of_lt ha
    rw [read_assignRef_other _ _ _ _ _ hne, read_copyPropertiesRef_old _ _ _ ha]
  · intro op hq
    obtain ⟨_, bps, _, rfl⟩ := (query_ok_iff mb c p o op).1 hq
    refine ⟨rfl, ⟨_, _, key _ _⟩, ?_⟩
    intro name h1 h2 h3
    exact getProp_requestOptions_other _ _ _ name h1 h2 h3
  · intro op hq
    by_cases hleg : legalOption [js "json", js "xml"] o.format
    · rw [explain_of_legal c p o hleg] at hq
      simp only [Except.ok.injEq] at hq
      subst hq
      refine ⟨rfl, ⟨_, _, key _ _⟩, ?_⟩
      intro name h1 h2 h3
      exact getProp_requestOptions_other _ _ _ name h1 h2 h3
    · rw [explain_of_illegal c p o hleg] at hq
      exact absurd hq (by simp)

/-- Witness for C16: a store holding the connection parameters
`{host: 'localhost', method: 'GET'}` at address `0`. -/
theorem connection_params_frame_witness :
    ∃ op, query (js "BOUNDARY") ⟨[(js "host", .str (js "localhost")), (js "method", .str (js "GET"))]⟩ ⟨js "{}"⟩ {}
        = .ok op ∧
      getProp op.options (js "host") = .str (js "localhost") ∧
      getProp op.options (js "method") = .str (js "POST") ∧
      op.client.connectionParams = [(js "host", .str (js "localhost")), (js "method", .str (js "GET"))] ∧
      (requestOptionsRef [[(js "host", .str (js "localhost")), (js "method", .str (js "GET"))]] 0
        (.obj []) (js "/v1/rows")).2.read 0 = [(js "host", .str (js "localhost")), (js "method", .str (js "GET"))] :=
  ⟨_, rfl, rfl, rfl, rfl,
    (connection_params_frame (js "BOUNDARY") ⟨[(js "host", .str (js "localhost")), (js "method", .str (js "GET"))]⟩
      ⟨js "{}"⟩ {} [[(js "host", .str (js "localhost")), (js "method", .str (js "GET"))]] 0 (by decide) rfl).2.1
      (.obj []) (js "/v1/rows")⟩

/-- C17: `query`, for legal options whose bindings encode, and `explain`, for a
legal format, return an operation whose valid status codes are `[200, 404]`,
and a response with the status 404 settles the result provider of that
operation on its success path with the empty sequence; the same holds of every
operation either of them returns. -/
theorem not_found_resolves_empty (mb : JSString) (c : Client) (p : Plan) (o : Options)
    (body : JSString) (decoded : List JSString) :
    (∀ bps, legalOptions o → bindingParams (o.bindings.getD []) = .ok bps →
      ∃ op, query mb c p o = .ok op ∧ op.validStatusCodes = [200, 404] ∧
        settle op 404 body decoded = .resolved []) ∧
    (legalOption [js "json", js "xml"] o.format →
      ∃ op, explain c p o = .ok op ∧ op.validStatusCodes = [200, 404] ∧
        settle op 404 body decoded = .resolved []) ∧
    (∀ op, query mb c p o = .ok op →
      op.validStatusCodes = [200, 404] ∧ settle op 404 body decoded = .resolved []) ∧
    (∀ op, explain c p o = .ok op →
      op.validStatusCodes = [200, 404] ∧ settle op 404 body decoded = .resolved []) := by
  refine ⟨?_, ?_, ?_, ?_⟩
  · intro bps hleg hb
    refine ⟨queryOperation mb c p o bps, ?_, rfl, rfl⟩
    rw [query_of_legal mb c p o hleg, hb]
  · intro hleg
    exact ⟨explainOperation c p o, explain_of_legal c p o hleg, rfl, rfl⟩
  · intro op hq
    obtain ⟨_, bps, _, rfl⟩ := (query_ok_iff mb c p o op).1 hq
    exact ⟨rfl, rfl⟩
  · intro op hq
    by_cases hleg : legalOption [js "json", js "xml"] o.format
    · rw [explain_of_legal c p o hleg] at hq
      simp only [Except.ok.injEq] at hq
      subst hq
      exact ⟨rfl, rfl⟩
    · rw [explain_of_illegal c p o hleg] at hq
      exact absurd hq (by simp)

/-- Witness for C17: `query` with `{format: 'csv'}` and the bindings `{a: 1}`
returns an operation, and a 404 response with a body settles it with the empty
sequence. -/
theorem not_found_resolves_empty_witness :
    ∃ op, query (js "BOUNDARY") ⟨[]⟩ ⟨js "{}"⟩
        { format := .str (js "csv"), bindings := some [(js "a", .num (js "1"))] } = .ok op ∧
      op.validStatusCodes = [200, 404] ∧
      settle op 404 (js "Not Found") [js "row"] = .resolved [] :=
  (not_found_resolves_empty (js "BOUNDARY") ⟨[]⟩ ⟨js "{}"⟩
    { format := .str (js "csv"), bindings := some [(js "a", .num (js "1"))] }
    (js "Not Found") [js "row"]).1 [js "bind%3Aa=1"]
    ⟨Or.inr (List.mem_map.2 ⟨js "csv", by decide, rfl⟩), Or.inl rfl, Or.inl rfl, Or.inl rfl⟩ rfl

theorem toJSString_of_legal {legal : List JSString} {v : JSVal} (h : legalOption legal v) :
    ∃ text, v.toJSString = .ok text := by
  rcases h with h | h
  · cases v <;> simp [JSVal.isSet] at h
    · exact ⟨_, rfl⟩
    · exact ⟨_, rfl⟩
  · simp only [List.mem_map] at h
    obtain ⟨t, _, rfl⟩ := h
    exact ⟨t, rfl⟩

/-- C18: validation in `query` stops at the first failure, in a fixed order.
An illegal `format` gives the format error whatever the other inputs are (the
error of the message, the value and a double quote when the value converts to
a string, and the `TypeError` of the conversion otherwise); with
a legal `format`, an illegal `output` gives the output error; then `rowFormat`;
then `columnTypes`; the bindings are examined only when the four options are
legal, and `query` then throws the error of the first entry, in the order of
the keys, that has one. Within an entry with a `value` sub-field the type
checks come before the lang check, and both before the check of the
combination. -/
theorem validation_order (mb : JSString) (c : Client) (p : Plan) (o : Options) :
    (¬ legalOption [js "json", js "xml", js "json-seq", js "csv", js "multipart"] o.format →
      query mb c p o = .error (optionError (js "invalid rows format \"") o.format)) ∧
    (legalOption [js "json", js "xml", js "json-seq", js "csv", js "multipart"] o.format →
      ¬ legalOption [js "object", js "array"] o.output →
      query mb c p o = .error (optionError (js "invalid rows output \"") o.output)) ∧
    (legalOption [js "json", js "xml", js "json-seq", js "csv", js "multipart"] o.format →
      legalOption [js "object", js "array"] o.output →
      ¬ legalOption [js "json", js "xml"] o.rowFormat →
      query mb c p o = .error (optionError (js "invalid row format \"") o.rowFormat)) ∧
    (legalOption [js "json", js "xml", js "json-seq", js "csv", js "multipart"] o.format →
      legalOption [js "object", js "array"] o.output →
      legalOption [js "json", js "xml"] o.rowFormat →
      ¬ legalOption [js "rows", js "header"] o.columnTypes →
      ∃ shown, query mb c p o
        = .error (.error (js "invalid column types \"" ++ shown ++ js "\""))) ∧
    (∀ msg shown text, shown.toJSString = .ok text →
      optionError msg shown = .error (msg ++ text ++ js "\"")) ∧
    (legalOptions o → ∀ pre key obj post e, o.bindings = some (pre ++ (key, obj) :: post) →
      (∀ kv ∈ pre, ∃ q, bindingParam kv.1 kv.2 = .ok q) →
      bindingParam key obj = .error e → query mb c p o = .error e) ∧
    (∀ key obj value, obj.get (js "value") = .ok value → value ≠ .undefined →
      ((obj.prop (js "type")).isSet = true → (obj.prop (js "type")).isString = false →
        bindingParam key obj = .error (.error (js "type must be string"))) ∧
      ((obj.prop (js "type")).isString = true → unit ':' ∈ (obj.prop (js "type")).stringValue →
        bindingParam key obj = .error (.error (js "type cannot contain colon - "
          ++ (obj.prop (js "type")).stringValue))) ∧
      (typeValid (obj.prop (js "type")) →
        (obj.prop (js "lang")).isSet = true → (obj.prop (js "lang")).isString = false →
        bindingParam key obj = .error (.error (js "lang must be string"))) ∧
      (typeValid (obj.prop (js "type")) → langValid (obj.prop (js "lang")) →
        ¬ comboValid (obj.prop (js "type")) (obj.prop (js "lang")) →
        bindingParam key obj = .error (.error (js "cannot combine type with lang - "
          ++ (obj.prop (js "type")).stringValue ++ js " " ++ (obj.prop (js "lang")).stringValue)))) := by
  refine ⟨?_, ?_, ?_, ?_, fun _ _ _ h => optionError_of_text h, ?_, ?_⟩
  · intro hf
    unfold query
    simp only [checkOption_of_illegal _ _ _ _ _ hf]
  · intro hf ho
    unfold query
    simp only [checkOption_of_legal _ _ _ _ _ hf, checkOption_of_illegal _ _ _ _ _ ho]
  · intro hf ho hr
    unfold query
    simp only [checkOption_of_legal _ _ _ _ _ hf, checkOption_of_legal _ _ _ _ _ ho,
      checkOption_of_illegal _ _ _ _ _ hr]
  · intro hf ho hr hc
    obtain ⟨text, htext⟩ := toJSString_of_legal hr
    refine ⟨text, ?_⟩
    unfold query
    simp only [checkOption_of_legal _ _ _ _ _ hf, checkOption_of_legal _ _ _ _ _ ho,
      checkOption_of_legal _ _ _ _ _ hr, checkOption_of_illegal _ _ _ _ _ hc,
      optionError_of_text htext]
  · intro hleg pre key obj post e hb hpre he
    rw [query_of_legal mb c p o hleg, hb, Option.getD_some,
      bindingParams_first_error pre post key obj e hpre he]
  · intro key obj value hv hne
    have hp := @bindingParam_of_value key obj value hv hne
    generalize obj.prop (js "type") = t at hp ⊢
    generalize obj.prop (js "lang") = l at hp ⊢
    have n12 : typeValid t → ¬ (t.isSet = true ∧ t.isString = false) ∧
        ¬ (t.isSet = true ∧ unit ':' ∈ t.stringValue) := by
      intro h0
      constructor
      · rintro ⟨a, b⟩
        rcases h0 with h0 | h0
        · simp [h0] at a
        · simp [h0.1] at b
      · rintro ⟨a, b⟩
        rcases h0 with h0 | h0
        · simp [h0] at a
        · exact h0.2 b
    refine ⟨?_, ?_, ?_, ?_⟩
    · intro h1 h2
      rw [hp, if_pos ⟨h1, h2⟩]
    · intro h1 h2
      rw [hp, if_neg (by simp [h1]), if_pos ⟨isSet_of_isString h1, h2⟩]
    · intro h0 h1 h2
      rw [hp, if_neg (n12 h0).1, if_neg (n12 h0).2, if_pos ⟨h1, h2⟩]
    · intro h0 hl hc
      have n3 : ¬ (l.isSet = true ∧ l.isString = false) := by
        rintro ⟨a, b⟩
        rcases hl with hl | hl
        · simp [hl] at a
        · simp [hl] at b
      have h4 : t.isSet = true ∧ l.isSet = true ∧ t.strictEqStr (js "string") = false := by
        unfold comboValid at hc
        simp only [not_not] at hc
        obtain ⟨a, b, d⟩ := hc
        refine ⟨a, b, ?_⟩
        cases hs : t.strictEqStr (js "string")
        · rfl
        · exact absurd ((strictEqStr_iff _ _).1 hs) d
      rw [hp, if_neg (n12 h0).1, if_neg (n12 h0).2, if_neg n3, if_pos h4]

/-- Witness for C18: every input is invalid at once, and the error is that of
`format`; with legal options and two invalid entries, it is that of the first
entry, whose `type` and `lang` are both invalid. -/
theorem validation_order_witness :
    query (js "BOUNDARY") ⟨[]⟩ ⟨js "{}"⟩
        { format := .str (js "f"), output := .str (js "o"), rowFormat := .str (js "r"), columnTypes := .str (js "c")
          bindings := some [(js "a", .null)] }
      = .error (.error (js "invalid rows format \"f\"")) ∧
    query (js "BOUNDARY") ⟨[]⟩ ⟨js "{}"⟩
        { bindings := some [(js "ok", .num (js "1")),
            (js "a", .obj [(js "value", .str (js "x")), (js "type", .num (js "1")), (js "lang", .num (js "2"))]),
            (js "b", .null)] }
      = .error (.error (js "type must be string")) :=
  ⟨(validation_order (js "BOUNDARY") ⟨[]⟩ ⟨js "{}"⟩
      { format := .str (js "f"), output := .str (js "o"), rowFormat := .str (js "r"), columnTypes := .str (js "c")
        bindings := some [(js "a", .null)] }).1
      (by
        rw [not_legalOption_iff]
        refine ⟨rfl, ?_⟩
        simp
        decide),
    rfl⟩

theorem intercalate_amp (ps : List JSString) : (js "&").intercalate ps = joinParams ps :=
  rfl

theorem bindingParams_eq_mapM (entries : Props) :
    bindingParams entries = entries.mapM fun kv => bindingParam kv.1 kv.2 := by
  induction entries with
  | nil => rfl
  | cons kv rest ih =>
    obtain ⟨key, obj⟩ := kv
    rw [List.mapM_cons, ← ih, bindingParams]
    cases bindingParam key obj with
    | error e => rfl
    | ok q =>
      cases bindingParams rest <;> rfl

/-- C19: for legal options and any bindings, absent and empty ones included,
the path the separator-threading code of `query` builds is the declarative
one: `/v1/rows?` followed by the `&`-join of one parameter per key of the
bindings, in the order of the keys, followed by the format parameters; and
`query` throws the error of the first entry that has one when the declarative
path does. -/
theorem path_refines_join (mb : JSString) (c : Client) (p : Plan) (o : Options)
    (hleg : legalOptions o) :
    (query mb c p o).map Operation.path = declarativePath o ∧
    (∀ op, query mb c p o = .ok op →
      ∃ bps, List.Forall₂ (fun kv q => bindingParam kv.1 kv.2 = .ok q)
          (o.bindings.getD []) bps ∧
        bps.length = (o.bindings.getD []).length ∧
        op.path = js "/v1/rows?" ++ (js "&").intercalate (bps ++ formatParams
          (optionValue (js "json") o.format) (optionValue (js "object") o.output)
          (optionValue (js "json") o.rowFormat) (optionValue (js "rows") o.columnTypes))) ∧
    ((o.bindings = none ∨ o.bindings = some []) → ∃ op, query mb c p o = .ok op ∧
      op.path = js "/v1/rows?" ++ (js "&").intercalate (formatParams
        (optionValue (js "json") o.format) (optionValue (js "object") o.output)
        (optionValue (js "json") o.rowFormat) (optionValue (js "rows") o.columnTypes))) := by
  have hq := query_of_legal mb c p o hleg
  refine ⟨?_, ?_, ?_⟩
  · rw [hq, declarativePath, ← bindingParams_eq_mapM]
    cases bindingParams (o.bindings.getD []) with
    | error e => rfl
    | ok bps =>
      simp only [Except.map, queryOperation_path, intercalate_amp]
      rfl
  · intro op hop
    obtain ⟨_, bps, hb, rfl⟩ := (query_ok_iff mb c p o op).1 hop
    have hf := (bindingParams_ok_iff _ _).1 hb
    exact ⟨bps, hf, hf.length_eq.symm, by rw [queryOperation_path, intercalate_amp]⟩
  · intro hb
    have hnil : o.bindings.getD [] = [] := by
      rcases hb with hb | hb <;> rw [hb] <;> rfl
    rw [hq, hnil]
    exact ⟨_, rfl, by rw [queryOperation_path, intercalate_amp, List.nil_append]⟩

/-- Witness for C19: three keys, the second one tagged with a type. -/
theorem path_refines_join_witness :
    (query (js "BOUNDARY") ⟨[]⟩ ⟨js "{}"⟩
        { format := .str (js "csv")
          bindings := some [(js "b", .num (js "2")), (js "a", .obj [(js "value", .str (js "x y")),
            (js "type", .str (js "string"))]), (js "c", .bool true)] }).map Operation.path
      = .ok (js "/v1/rows?bind%3Ab=2&bind%3Aa%3Astring=x%20y&bind%3Ac=true&output=object&column-types=rows") ∧
    declarativePath
        { format := .str (js "csv")
          bindings := some [(js "b", .num (js "2")), (js "a", .obj [(js "value", .str (js "x y")),
            (js "type", .str (js "string"))]), (js "c", .bool true)] }
      = .ok (js "/v1/rows?bind%3Ab=2&bind%3Aa%3Astring=x%20y&bind%3Ac=true&output=object&column-types=rows") :=
  ⟨rfl, (path_refines_join (js "BOUNDARY") ⟨[]⟩ ⟨js "{}"⟩
      { format := .str (js "csv")
        bindings := some [(js "b", .num (js "2")), (js "a", .obj [(js "value", .str (js "x y")),
          (js "type", .str (js "string"))]), (js "c", .bool true)] }
      ⟨Or.inr (List.mem_map.2 ⟨js "csv", by decide, rfl⟩), Or.inl rfl, Or.inl rfl,
        Or.inl rfl⟩).1 ▸ rfl⟩

theorem count_eq_zero_of_paramChar {x : Nat} (hx : paramChar x = false) {l : List Nat}
    (h : ∀ y ∈ l, paramChar y = true) : l.count x = 0 := by
  rw [List.count_eq_zero]
  intro hm
  rw [h x hm] at hx
  exact absurd hx (by decide)

theorem count_of_safe {t : JSString} (ht : ∀ y ∈ t, uriSafe y = true) (x : Nat)
    (hx : uriSafe x = false) : t.count x = 0 := by
  rw [List.count_eq_zero]
  intro hm
  rw [ht x hm] at hx
  exact absurd hx (by decide)

theorem bindingParam_counts {key : JSString} {obj : JSVal} {q : JSString}
    (h : bindingParam key obj = .ok q) : q.count (unit '=') = 1 ∧ q.count (unit '&') = 0 := by
  obtain ⟨name, value, a, b, _, ha, hb, rfl⟩ := bindingParam_ok h
  have sa := encodeUnits_safe name none a ha
  have sb := encodeURIComponent_safe hb
  simp only [List.count_append, count_of_safe sa (unit '=') (by decide),
    count_of_safe sa (unit '&') (by decide), count_of_safe sb (unit '=') (by decide),
    count_of_safe sb (unit '&') (by decide)]
  constructor <;> rfl

theorem count_ampAll (x : Nat) (ps : List JSString) :
    (ampAll ps).count x
      = (if x = unit '&' then ps.length else 0) + (ps.map fun q => q.count x).sum := by
  induction ps with
  | nil => simp [ampAll]
  | cons q qs ih =>
    have hd : (ampAll (q :: qs)) = unit '&' :: (q ++ (ampAll qs)) := by
      simp [ampAll]
    rw [hd, List.count_cons, List.count_append, ih]
    by_cases hx : x = unit '&'
    · subst hx
      simp
      omega
    · have hx' : (unit '&' == x) = false := by
        simp only [beq_eq_false_iff_ne, ne_eq]
        exact fun e => hx e.symm
      simp [hx, hx']

theorem count_joinParams (x : Nat) (q : JSString) (qs : List JSString) :
    (joinParams (q :: qs)).count x
      = (if x = unit '&' then qs.length else 0) + ((q :: qs).map fun r => r.count x).sum := by
  rw [joinParams_cons_data, List.count_append, count_ampAll]
  simp only [List.map_cons, List.sum_cons]
  omega

theorem sum_map_const {α : Type} (l : List α) (f : α → Nat) (n : Nat)
    (h : ∀ a ∈ l, f a = n) : (l.map f).sum = l.length * n := by
  induction l with
  | nil => simp
  | cons a rest ih =>
    rw [List.map_cons, List.sum_cons, h a (List.mem_cons_self _ _),
      ih (fun b hb => h b (List.mem_cons_of_mem _ hb)), List.length_cons, Nat.succ_mul]
    omega

theorem formatParams_counts (o : Options) (hleg : legalOptions o) :
    ∀ q ∈ formatParams (optionValue (js "json") o.format) (optionValue (js "object") o.output)
      (optionValue (js "json") o.rowFormat) (optionValue (js "rows") o.columnTypes),
      q.count (unit '=') = 1 ∧ q.count (unit '&') = 0 := by
  obtain ⟨hf, ho, hr, hc⟩ := hleg
  have ho' := optionValue_mem (js "object") ho
  have hr' := optionValue_mem (js "json") hr
  have hc' := optionValue_mem (js "rows") hc
  have hvals : ∀ s ∈ [js "object", js "array", js "json", js "xml", js "rows", js "header"],
      s.count (unit '=') = 0 ∧ s.count (unit '&') = 0 := by decide
  have hO := hvals (optionValue (js "object") o.output)
    (by simp only [List.mem_cons, List.mem_singleton, List.not_mem_nil] at ho' ⊢; tauto)
  have hR := hvals (optionValue (js "json") o.rowFormat)
    (by simp only [List.mem_cons, List.mem_singleton, List.not_mem_nil] at hr' ⊢; tauto)
  have hC := hvals (optionValue (js "rows") o.columnTypes)
    (by simp only [List.mem_cons, List.mem_singleton, List.not_mem_nil] at hc' ⊢; tauto)
  have l1 : (js "output=").count (unit '=') = 1 ∧ (js "output=").count (unit '&') = 0 := by decide
  have l2 : (js "row-format=").count (unit '=') = 1 ∧ (js "row-format=").count (unit '&') = 0 := by decide
  have l3 : (js "column-types=").count (unit '=') = 1 ∧ (js "column-types=").count (unit '&') = 0 := by
    decide
  intro q hq
  unfold formatParams at hq
  split_ifs at hq <;>
    simp only [List.mem_cons, List.mem_singleton, List.not_mem_nil, or_false] at hq
  · subst hq
    simp [List.count_append, l2.1, l2.2, hR.1, hR.2]
  · rcases hq with rfl | rfl | rfl <;>
      simp [List.count_append, l1.1, l1.2, l2.1, l2.2, l3.1, l3.2,
        hO.1, hO.2, hR.1, hR.2, hC.1, hC.2]
  · rcases hq with rfl | rfl <;>
      simp [List.count_append, l1.1, l1.2, l3.1, l3.2,
        hO.1, hO.2, hC.1, hC.2]

theorem formatParams_length (o : Options) :
    (formatParams (optionValue (js "json") o.format) (optionValue (js "object") o.output)
      (optionValue (js "json") o.rowFormat) (optionValue (js "rows") o.columnTypes)).length
      = formatParamCount o := by
  unfold formatParams formatParamCount
  split_ifs <;> rfl

/-- C20: the characters of the keys, types, langs and values of the bindings
cannot add or change parameters. For legal options and bindings with `n` keys
that encode, the path `query` builds has exactly `n + k` characters `=` and
`n + k - 1` characters `&`, where `k` is the number of format parameters. -/
theorem no_parameter_injection (mb : JSString) (c : Client) (p : Plan) (o : Options)
    (op : Operation) (h : query mb c p o = .ok op) :
    op.path.count (unit '=') = (o.bindings.getD []).length + formatParamCount o ∧
    op.path.count (unit '&') = (o.bindings.getD []).length + formatParamCount o - 1 := by
  obtain ⟨hleg, bps, hb, _, hpath, _⟩ := query_ok_params h
  have hlen : bps.length = (o.bindings.getD []).length :=
    ((bindingParams_ok_iff _ _).1 hb).length_eq.symm
  have hall : ∀ q ∈ bps ++ formatParams (optionValue (js "json") o.format)
      (optionValue (js "object") o.output) (optionValue (js "json") o.rowFormat)
      (optionValue (js "rows") o.columnTypes), q.count (unit '=') = 1 ∧ q.count (unit '&') = 0 := by
    intro q hq
    rcases List.mem_append.1 hq with hq | hq
    · obtain ⟨kv, _, hk⟩ := bindingParams_mem hb hq
      exact bindingParam_counts hk
    · exact formatParams_counts o hleg q hq
  have htotal : (bps ++ formatParams (optionValue (js "json") o.format)
      (optionValue (js "object") o.output) (optionValue (js "json") o.rowFormat)
      (optionValue (js "rows") o.columnTypes)).length
      = (o.bindings.getD []).length + formatParamCount o := by
    rw [List.length_append, hlen, formatParams_length]
  generalize bps ++ formatParams (optionValue (js "json") o.format)
    (optionValue (js "object") o.output) (optionValue (js "json") o.rowFormat)
    (optionValue (js "rows") o.columnTypes) = params at hpath hall htotal
  cases params with
  | nil =>
    have hk : 0 < formatParamCount o := by
      unfold formatParamCount
      split_ifs <;> decide
    simp only [List.length_nil] at htotal
    omega
  | cons q qs =>
    have h1 : (js "/v1/rows?").count (unit '=') = 0 := by decide
    have h2 : (js "/v1/rows?").count (unit '&') = 0 := by decide
    have s1 := sum_map_const (q :: qs) (fun r => r.count (unit '=')) 1 (fun r hr => (hall r hr).1)
    have s2 := sum_map_const (q :: qs) (fun r => r.count (unit '&')) 0 (fun r hr => (hall r hr).2)
    rw [hpath, List.count_append, List.count_append, count_joinParams,
      count_joinParams, h1, h2, s1, s2, if_neg (by decide : ¬ unit '=' = unit '&'),
      if_pos rfl]
    simp only [List.length_cons] at htotal s1 s2 ⊢
    constructor <;> omega

/-- Witness for C20: two keys whose names and values hold `&`, `=`, `?`, `#`
and `/`, with the format `multipart`: 2 + 3 characters `=` and 4 characters
`&`. -/
theorem no_parameter_injection_witness :
    ∃ op, query (js "BOUNDARY") ⟨[]⟩ ⟨js "{}"⟩
        { format := .str (js "multipart")
          bindings := some [(js "a&b=c", .str (js "x&output=array")), (js "d?#/", .str (js "=&="))] }
        = .ok op ∧
      op.path = js "/v1/rows?bind%3Aa%26b%3Dc=x%26output%3Darray&bind%3Ad%3F%23%2F=%3D%26%3D&output=object&row-format=json&column-types=rows" ∧
      op.path.count (unit '=') = 5 ∧ op.path.count (unit '&') = 4 :=
  ⟨_, rfl, rfl, no_parameter_injection (js "BOUNDARY") ⟨[]⟩ ⟨js "{}"⟩
    { format := .str (js "multipart")
      bindings := some [(js "a&b=c", .str (js "x&output=array")), (js "d?#/", .str (js "=&="))] } _ rfl⟩

theorem formatParams_not_multipart {format : JSString}
    (output rowFormat rowFormat' columnTypes : JSString) (h : format ≠ js "multipart") :
    formatParams format output rowFormat columnTypes
      = formatParams format output rowFormat' columnTypes := by
  simp only [formatParams, h, if_false]

theorem formatParams_multipart_xml (output output' columnTypes columnTypes' : JSString) :
    formatParams (js "multipart") output (js "xml") columnTypes
      = formatParams (js "multipart") output' (js "xml") columnTypes' := rfl

/-- C21: options that are not sent do not influence the request. Two legal
option sets with the same bindings that differ in `rowFormat` only, with a
format other than `multipart`, give the same result for the same plan and
client, so the same operation; and two legal option sets with the format
`multipart` and the row format `xml` that differ in `output` and `columnTypes`
only give the same result. -/
theorem unsent_options_irrelevant (mb : JSString) (c : Client) (p : Plan) (o o' : Options)
    (hleg : legalOptions o) (hleg' : legalOptions o') (hb : o'.bindings = o.bindings)
    (hf : o'.format = o.format) :
    (o.format ≠ .str (js "multipart") → o'.output = o.output → o'.columnTypes = o.columnTypes →
      query mb c p o' = query mb c p o ∧
      ∀ op, query mb c p o = .ok op → query mb c p o' = .ok op) ∧
    (o.format = .str (js "multipart") → o.rowFormat = .str (js "xml") → o'.rowFormat = .str (js "xml") →
      query mb c p o' = query mb c p o ∧
      ∀ op, query mb c p o = .ok op → query mb c p o' = .ok op) := by
  have hm : optionValue (js "json") o.format = js "multipart" ↔
      o.format = .str (js "multipart") :=
    optionValue_eq_iff hleg.1 (by decide)
  constructor
  · intro hne ho hc
    have hnm : optionValue (js "json") o.format ≠ js "multipart" := fun h => hne (hm.1 h)
    have heq : query mb c p o' = query mb c p o := by
      rw [query_of_legal mb c p o hleg, query_of_legal mb c p o' hleg', hb]
      cases bindingParams (o.bindings.getD []) with
      | error e => rfl
      | ok bps =>
        simp only [queryOperation, hf, ho, hc,
          formatParams_not_multipart _ (optionValue (js "json") o'.rowFormat)
            (optionValue (js "json") o.rowFormat) _ hnm]
    exact ⟨heq, fun op h => heq.trans h⟩
  · intro hmp hr hr'
    have heq : query mb c p o' = query mb c p o := by
      rw [query_of_legal mb c p o hleg, query_of_legal mb c p o' hleg', hb]
      cases bindingParams (o.bindings.getD []) with
      | error e => rfl
      | ok bps =>
        simp only [queryOperation, hf, hmp, hr, hr', optionValue_str,
          formatParams_multipart_xml (optionValue (js "object") o'.output)
            (optionValue (js "object") o.output) (optionValue (js "rows") o'.columnTypes)
            (optionValue (js "rows") o.columnTypes)]
    exact ⟨heq, fun op h => heq.trans h⟩

/-- Witness for C21: the format `csv` with the row formats `xml` and absent,
and the same bindings. -/
theorem unsent_options_irrelevant_witness :
    query (js "BOUNDARY") ⟨[]⟩ ⟨js "{}"⟩
        { format := .str (js "csv"), rowFormat := .str (js "xml"), bindings := some [(js "a", .num (js "1"))] }
      = query (js "BOUNDARY") ⟨[]⟩ ⟨js "{}"⟩
        { format := .str (js "csv"), bindings := some [(js "a", .num (js "1"))] } ∧
    ∃ op, query (js "BOUNDARY") ⟨[]⟩ ⟨js "{}"⟩
        { format := .str (js "csv"), bindings := some [(js "a", .num (js "1"))] } = .ok op ∧
      op.path = js "/v1/rows?bind%3Aa=1&output=object&column-types=rows" :=
  ⟨((unsent_options_irrelevant (js "BOUNDARY") ⟨[]⟩ ⟨js "{}"⟩
      { format := .str (js "csv"), bindings := some [(js "a", .num (js "1"))] }
      { format := .str (js "csv"), rowFormat := .str (js "xml"), bindings := some [(js "a", .num (js "1"))] }
      ⟨Or.inr (List.mem_map.2 ⟨js "csv", by decide, rfl⟩), Or.inl rfl, Or.inl rfl, Or.inl rfl⟩
      ⟨Or.inr (List.mem_map.2 ⟨js "csv", by decide, rfl⟩), Or.inl rfl,
        Or.inr (List.mem_map.2 ⟨js "xml", by decide, rfl⟩), Or.inl rfl⟩ rfl rfl).1
      (fun h => absurd (show js "csv" = js "multipart" from JSVal.str.inj h) (by decide))
      rfl rfl).1,
    _, rfl, rfl⟩

theorem get_value_obj (raw : JSVal) (rest : Props) :
    (JSVal.obj ((js "value", raw) :: rest)).get (js "value") = .ok raw := by
  simp [JSVal.get, List.lookup]

/-- C22: the encoding of bindings into parameters is not injective. The bare
binding `{'a@en': 'x'}` and the tagged binding `{a: {value: 'x', lang: 'en'}}`
are different bindings for which `query` builds the same operation, and so are
`{'a:int': 'x'}` and `{a: {value: 'x', type: 'int'}}`. In general a bare
entry under the key `key@lang` (or `key:type`) emits the parameter of the
entry `key` tagged with that `lang` (or `type`), since keys are not checked
for `@` or `:`. -/
theorem encoding_not_injective (mb : JSString) (c : Client) (p : Plan) :
    ([(js "a@en", JSVal.str (js "x"))] : Props)
      ≠ [(js "a", .obj [(js "value", .str (js "x")), (js "lang", .str (js "en"))])] ∧
    query mb c p { bindings := some [(js "a@en", .str (js "x"))] }
      = query mb c p { bindings := some [(js "a", .obj [(js "value", .str (js "x")),
          (js "lang", .str (js "en"))])] } ∧
    (∃ op, query mb c p { bindings := some [(js "a@en", .str (js "x"))] } = .ok op ∧
      op.path = js "/v1/rows?bind%3Aa%40en=x&output=object&column-types=rows") ∧
    ([(js "a:int", JSVal.str (js "x"))] : Props)
      ≠ [(js "a", .obj [(js "value", .str (js "x")), (js "type", .str (js "int"))])] ∧
    query mb c p { bindings := some [(js "a:int", .str (js "x"))] }
      = query mb c p { bindings := some [(js "a", .obj [(js "value", .str (js "x")),
          (js "type", .str (js "int"))])] } ∧
    (∃ op, query mb c p { bindings := some [(js "a:int", .str (js "x"))] } = .ok op ∧
      op.path = js "/v1/rows?bind%3Aa%3Aint=x&output=object&column-types=rows") ∧
    (∀ key lang raw, raw.get (js "value") = .ok .undefined →
      bindingParam (key ++ js "@" ++ lang) raw
        = bindingParam key (.obj [(js "value", raw), (js "lang", .str lang)])) ∧
    (∀ key type raw, raw.get (js "value") = .ok .undefined → unit ':' ∉ type →
      bindingParam (key ++ js ":" ++ type) raw
        = bindingParam key (.obj [(js "value", raw), (js "type", .str type)])) := by
  have hundef : ∀ raw : JSVal, raw.get (js "value") = .ok .undefined → raw ≠ .undefined := by
    intro raw h he
    rw [he] at h
    exact absurd h (by simp [JSVal.get])
  refine ⟨?_, rfl, ⟨_, rfl, ?_⟩, ?_, rfl, ⟨_, rfl, ?_⟩, ?_, ?_⟩
  · intro h
    have hk : (js "a@en") = js "a" := by
      injection h with h1 _
      exact (Prod.mk.inj h1).1
    exact absurd hk (by decide)
  · simp only [Operation.path, getProp_setProp_same]
    rfl
  · intro h
    have hk : (js "a:int") = js "a" := by
      injection h with h1 _
      exact (Prod.mk.inj h1).1
    exact absurd hk (by decide)
  · simp only [Operation.path, getProp_setProp_same]
    rfl
  · intro key lang raw hraw
    rw [bindingParam_of_nameValue (bindingNameValue_of_bare hraw),
      bindingParam_of_value (get_value_obj raw _) (hundef raw hraw)]
    rfl
  · intro key type raw hraw hcolon
    rw [bindingParam_of_nameValue (bindingNameValue_of_bare hraw),
      bindingParam_of_value (get_value_obj raw _) (hundef raw hraw)]
    have hp : (JSVal.obj [(js "value", raw), (js "type", .str type)]).prop (js "type") = .str type := rfl
    have hl : (JSVal.obj [(js "value", raw), (js "type", .str type)]).prop (js "lang") = .undefined := rfl
    rw [hp, hl]
    have n2 : ¬ ((JSVal.str type).isSet = true ∧ unit ':' ∈ (JSVal.str type).stringValue) :=
      fun h => hcolon h.2
    rw [if_neg (by simp [JSVal.isString]), if_neg n2, if_neg (by simp [JSVal.isSet]),
      if_neg (by simp [JSVal.isSet])]
    rfl

end Rows
